import Mathlib

/-!
# trongrid-golang: the TronGrid HTTP client

A shallow embedding of `config/config.go` and `client/tronclient.go`.

The four operations of `TronClient` are embedded as functions returning
`Except OpError _`.  What they call in Go's standard library is modelled next
to them, as far as the operations can observe it:

* `net/http`: the header map (`Header.Add` with canonical keys), `NewRequest`
  and the client's `Do`, which is a field of the client (the transport);
* `encoding/json`: the scanner's grammar (one value, with the nesting limit),
  `Unmarshal` (the whole input is one value) and `Decoder.Decode` (the first
  value of a stream), and the stores into the three result structs;
* `fmt.Sprintf` with `%s` verbs only: string concatenation.

Texts are sequences of Unicode characters: a response body is taken to be
valid UTF-8.  An operation that returns `.error e` returns the zero value of
its result type together with the error `e` in Go.  `cmd/main.go` reads two
environment variables and prints the configuration; it calls no operation and
is not embedded.

The statements about the claims C1 to C10 of the specification come after
the definitions, each with the lemmas it rests on.
-/

namespace TronGrid

/-- Results of fallible code are compared by value. -/
instance instDecidableEqExcept {ε α : Type} [DecidableEq ε] [DecidableEq α] :
    DecidableEq (Except ε α)
  | .ok a, .ok b => if h : a = b then isTrue (by rw [h]) else isFalse (by intro h1; cases h1; exact h rfl)
  | .error a, .error b =>
    if h : a = b then isTrue (by rw [h]) else isFalse (by intro h1; cases h1; exact h rfl)
  | .ok _, .error _ => isFalse (by intro h; cases h)
  | .error _, .ok _ => isFalse (by intro h; cases h)

/-! ## config/config.go -/

/-- TronConfig holds the configuration for connecting to the Tron network. -/
structure TronConfig where
  NetworkURL : String
  APIKey : String
  deriving DecidableEq, Repr

def TRON_MAINNET : String := "https://api.trongrid.io"

def TRON_SHASTA_TESTNET : String := "https://api.shasta.trongrid.io"

/-- NewTronConfig creates a new TronConfig with specified network and API key. -/
def NewTronConfig (network : String) (apiKey : String) : TronConfig :=
  { NetworkURL := network, APIKey := apiKey }

/-! ## net/http: headers and requests -/

/-- The bytes of an HTTP token (`validHeaderFieldByte` of net/textproto). -/
def validHeaderFieldByte (c : Char) : Bool :=
  c.isAlphanum || "!#$%&'*+-.^_|~".toList.contains c || c = Char.ofNat 96

/-- One step of the canonical form: upper case at the start and after a dash,
lower case elsewhere. -/
def canonicalLoop : Bool → List Char → List Char
  | _, [] => []
  | upper, c :: cs =>
    let c1 := if upper then c.toUpper else c.toLower
    c1 :: canonicalLoop (c1 = '-') cs

/-- `textproto.CanonicalMIMEHeaderKey`: a key with a byte that is no token byte
is left as it is. -/
def CanonicalMIMEHeaderKey (s : String) : String :=
  if s.toList.all validHeaderFieldByte then String.mk (canonicalLoop true s.toList) else s

/-- `http.Header`, a map from canonical keys to the values added under them,
as an association list in the order the keys were first added. -/
abbrev Header := List (String × List String)

/-- Append a value under a key that is already canonical. -/
def Header.addCanonical : Header → String → String → Header
  | [], k, v => [(k, [v])]
  | (k1, vs) :: h, k, v =>
    if k1 = k then (k1, vs ++ [v]) :: h else (k1, vs) :: Header.addCanonical h k v

/-- `Header.Add`: appends the value to the values of the canonical key. -/
def Header.Add (h : Header) (key value : String) : Header :=
  Header.addCanonical h (CanonicalMIMEHeaderKey key) value

/-- `Header.Values`: all values of the key, looked up by its canonical form. -/
def Header.Values (h : Header) (key : String) : List String :=
  match h.lookup (CanonicalMIMEHeaderKey key) with
  | some vs => vs
  | none => []

/-- `Header.Get`: the first value of the key, the empty string when absent. -/
def Header.Get (h : Header) (key : String) : String :=
  (Header.Values h key).headD ""

/-- What the operations fix of an `http.Request`: the method, the URL text
given to `NewRequest`, the headers, and the body (`none` for a nil body). -/
structure Request where
  Method : String
  URL : String
  Header : Header
  Body : Option String
  deriving DecidableEq, Repr

/-- An HTTP response as the operations read it: the bytes its body stream
yields, and the error the stream ends with (`none`: a clean end of file). -/
structure Response where
  Body : String
  ReadErr : Option String
  deriving DecidableEq, Repr

/-- `io.ReadAll` on the response body. -/
def ReadAll (resp : Response) : Except String String :=
  match resp.ReadErr with
  | some e => .error e
  | none => .ok resp.Body

/-! ## encoding/json: values and the scanner's grammar -/

/-- A JSON value as the decoder sees it: a number keeps its literal text, a
string and an object key are unquoted. -/
inductive JSON where
  | null
  | bool (b : Bool)
  | num (lit : List Char)
  | str (s : List Char)
  | arr (xs : List JSON)
  | obj (ms : List (List Char × JSON))

/-- Why a scan of one value stopped: at a character the grammar refuses, at the
end of the text before the value was complete, at a nesting deeper than the
limit; `fuel` is the bound of a loop over the items of an array or object
running out (shown below never to happen). -/
inductive ScanError where
  | bad
  | short
  | depth
  | fuel
  deriving DecidableEq, Repr

/-- The result of scanning a value off the front of a text: the value and the
rest of the text. -/
abbrev Scan (α : Type) := Except ScanError (α × List Char)

/-- The four blanks of JSON (`isSpace`). -/
def isSpace (c : Char) : Bool :=
  c = ' ' || c = '\t' || c = '\r' || c = '\n'

def skipSpace : List Char → List Char
  | [] => []
  | c :: cs => if isSpace c then skipSpace cs else c :: cs

/-- The rest of a literal name (`true`, `false`, `null`), character by
character. -/
def expectChars : List Char → List Char → Scan Unit
  | [], cs => .ok ((), cs)
  | _ :: _, [] => .error .short
  | e :: es, c :: cs => if c = e then expectChars es cs else .error .bad

/-- One or more digits. -/
def scanDigits1 : List Char → Scan (List Char)
  | [] => .error .short
  | c :: cs => if c.isDigit then .ok ((c :: cs).span Char.isDigit) else .error .bad

/-- The exponent after its `e`: an optional sign and one or more digits
(`stateE`, `stateESign`, `stateE0`). -/
def scanExpTail : List Char → Scan (List Char)
  | '+' :: cs =>
    match scanDigits1 cs with
    | .ok (ds, r) => .ok ('+' :: ds, r)
    | .error e => .error e
  | '-' :: cs =>
    match scanDigits1 cs with
    | .ok (ds, r) => .ok ('-' :: ds, r)
    | .error e => .error e
  | cs => scanDigits1 cs

/-- An optional exponent. -/
def scanExp : List Char → Scan (List Char)
  | 'e' :: cs =>
    match scanExpTail cs with
    | .ok (ds, r) => .ok ('e' :: ds, r)
    | .error e => .error e
  | 'E' :: cs =>
    match scanExpTail cs with
    | .ok (ds, r) => .ok ('E' :: ds, r)
    | .error e => .error e
  | cs => .ok ([], cs)

/-- An optional fraction, then an optional exponent (`state0`, `stateDot`,
`stateDot0`). -/
def scanFracExp : List Char → Scan (List Char)
  | '.' :: cs =>
    match scanDigits1 cs with
    | .ok (ds, r) =>
      match scanExp r with
      | .ok (ex, r1) => .ok ('.' :: (ds ++ ex), r1)
      | .error e => .error e
    | .error e => .error e
  | cs => scanExp cs

/-- The integer part: a lone `0`, or a digit from 1 to 9 and more digits
(`state0`, `state1`). -/
def scanIntPart : List Char → Scan (List Char)
  | [] => .error .short
  | c :: cs =>
    if c = '0' then .ok (['0'], cs)
    else if c.isDigit then .ok (c :: (cs.span Char.isDigit).1, (cs.span Char.isDigit).2)
    else .error .bad

/-- The number after its optional minus sign. -/
def scanUnsigned (cs : List Char) : Scan (List Char) :=
  match scanIntPart cs with
  | .ok (ip, r) =>
    match scanFracExp r with
    | .ok (fe, r1) => .ok (ip ++ fe, r1)
    | .error e => .error e
  | .error e => .error e

/-- A number literal: its text and the rest. -/
def scanNumber : List Char → Scan (List Char)
  | '-' :: cs =>
    match scanUnsigned cs with
    | .ok (lit, r) => .ok ('-' :: lit, r)
    | .error e => .error e
  | cs => scanUnsigned cs

/-- The value of a hexadecimal digit. -/
def hexVal (c : Char) : Option Nat :=
  if c.isDigit then some (c.toNat - 48)
  else if 'a'.toNat ≤ c.toNat ∧ c.toNat ≤ 'f'.toNat then some (c.toNat - 87)
  else if 'A'.toNat ≤ c.toNat ∧ c.toNat ≤ 'F'.toNat then some (c.toNat - 55)
  else none

/-- The Unicode replacement character. -/
def replacementChar : Char := Char.ofNat 0xFFFD

/-- Whether a code unit is a surrogate (`utf16.IsSurrogate`). -/
def isSurrogate (n : Nat) : Bool := 0xD800 ≤ n && n < 0xE000

/-- `utf16.DecodeRune`: the character of a surrogate pair, `none` when the two
code units are no pair. -/
def decodeSurrogates (hi lo : Nat) : Option Char :=
  if 0xD800 ≤ hi ∧ hi < 0xDC00 ∧ 0xDC00 ≤ lo ∧ lo < 0xE000 then
    some (Char.ofNat (0x10000 + (hi - 0xD800) * 0x400 + (lo - 0xDC00)))
  else none

/-- The escapes of one character after the backslash. -/
def simpleEscape (c : Char) : Option Char :=
  if c = '"' then some '"'
  else if c = '\\' then some '\\'
  else if c = '/' then some '/'
  else if c = 'b' then some (Char.ofNat 8)
  else if c = 'f' then some (Char.ofNat 12)
  else if c = 'n' then some '\n'
  else if c = 'r' then some '\r'
  else if c = 't' then some '\t'
  else none

/-- Where the scanner stands inside a string literal: between characters
(`stateInString`), after a backslash (`stateInStringEsc`), or after `\u` and
`k` hexadecimal digits whose value so far is `acc` (`stateInStringEscU` and
the three states after it). -/
inductive StrState where
  | plain
  | esc
  | hex (k acc : Nat)
  deriving DecidableEq, Repr

/-- A surrogate that found no partner is written as the replacement
character. -/
def flushPending (pending : Option Nat) (out : List Char) : List Char :=
  match pending with
  | some _ => replacementChar :: out
  | none => out

/-- Put characters in front of what the rest of the literal unquotes to. -/
def emit (pre : List Char) (r : Scan (List Char)) : Scan (List Char) :=
  match r with
  | .ok (s, rest) => .ok (pre ++ s, rest)
  | .error e => .error e

/-- The body of a string literal after its opening quote, unquoted as
`unquote` does: the escapes are replaced, a surrogate pair becomes one
character and a surrogate with no partner the replacement character
(`pending` is a `\u` surrogate that waits for the `\u` escape right after it).
A control character, an unknown escape and a bad hexadecimal digit are
refused. -/
def scanStr : StrState → Option Nat → List Char → Scan (List Char)
  | _, _, [] => .error .short
  | .plain, pending, c :: cs =>
    if c = '"' then .ok (flushPending pending [], cs)
    else if c = '\\' then scanStr .esc pending cs
    else if c.toNat < 0x20 then .error .bad
    else emit (flushPending pending [c]) (scanStr .plain none cs)
  | .esc, pending, c :: cs =>
    if c = 'u' then scanStr (.hex 0 0) pending cs
    else
      match simpleEscape c with
      | some ch => emit (flushPending pending [ch]) (scanStr .plain none cs)
      | none => .error .bad
  | .hex k acc, pending, c :: cs =>
    match hexVal c with
    | none => .error .bad
    | some h =>
      if k < 3 then scanStr (.hex (k + 1) (acc * 16 + h)) pending cs
      else
        match pending.bind (fun hi => decodeSurrogates hi (acc * 16 + h)) with
        | some ch => emit [ch] (scanStr .plain none cs)
        | none =>
          if isSurrogate (acc * 16 + h) then
            emit (flushPending pending []) (scanStr .plain (some (acc * 16 + h)) cs)
          else
            emit (flushPending pending [Char.ofNat (acc * 16 + h)]) (scanStr .plain none cs)

/-- A string literal after its opening quote. -/
def scanString (cs : List Char) : Scan (List Char) := scanStr .plain none cs

/-- The most containers that may be open at once (`maxNestingDepth`). -/
def maxNestingDepth : Nat := 10000

/-- A value that is no container, by its first character: a string, one of
the three literal names, or a number. -/
def scanScalar (c : Char) (cs : List Char) : Scan JSON :=
  if c = '"' then
    match scanString cs with
    | .ok (s, r) => .ok (.str s, r)
    | .error e => .error e
  else if c = 't' then
    match expectChars ['r', 'u', 'e'] cs with
    | .ok (_, r) => .ok (.bool true, r)
    | .error e => .error e
  else if c = 'f' then
    match expectChars ['a', 'l', 's', 'e'] cs with
    | .ok (_, r) => .ok (.bool false, r)
    | .error e => .error e
  else if c = 'n' then
    match expectChars ['u', 'l', 'l'] cs with
    | .ok (_, r) => .ok (.null, r)
    | .error e => .error e
  else if c = '-' ∨ c.isDigit then
    match scanNumber (c :: cs) with
    | .ok (lit, r) => .ok (.num lit, r)
    | .error e => .error e
  else .error .bad

/-- The items of an array that is not empty, up to its closing bracket: a
value, then a comma and more items, or the bracket.  `pv` scans one item;
the first argument bounds the number of items. -/
def scanElems (pv : List Char → Scan JSON) : Nat → List Char → Scan (List JSON)
  | 0, _ => .error .fuel
  | n + 1, cs =>
    match pv (skipSpace cs) with
    | .error e => .error e
    | .ok (v, r) =>
      match skipSpace r with
      | [] => .error .short
      | c :: r1 =>
        if c = ',' then
          match scanElems pv n r1 with
          | .ok (vs, r2) => .ok (v :: vs, r2)
          | .error e => .error e
        else if c = ']' then .ok ([v], r1)
        else .error .bad

/-- The members of an object that is not empty, up to its closing brace: a
key string, a colon, a value, then a comma and more members, or the brace. -/
def scanMembers (pv : List Char → Scan JSON) :
    Nat → List Char → Scan (List (List Char × JSON))
  | 0, _ => .error .fuel
  | n + 1, cs =>
    match skipSpace cs with
    | [] => .error .short
    | c :: r =>
      if c = '"' then
        match scanString r with
        | .error e => .error e
        | .ok (k, r1) =>
          match skipSpace r1 with
          | [] => .error .short
          | c1 :: r2 =>
            if c1 = ':' then
              match pv (skipSpace r2) with
              | .error e => .error e
              | .ok (v, r3) =>
                match skipSpace r3 with
                | [] => .error .short
                | c2 :: r4 =>
                  if c2 = ',' then
                    match scanMembers pv n r4 with
                    | .ok (ms, r5) => .ok ((k, v) :: ms, r5)
                    | .error e => .error e
                  else if c2 = '}' then .ok ([(k, v)], r4)
                  else .error .bad
            else .error .bad
      else .error .bad

/-- A container after its opening character `c`, its items scanned by `pv`. -/
def scanContainer (pv : List Char → Scan JSON) (c : Char) (cs : List Char) : Scan JSON :=
  if c = '{' then
    match skipSpace cs with
    | [] => .error .short
    | c1 :: r =>
      if c1 = '}' then .ok (.obj [], r)
      else
        match scanMembers pv (r.length + 2) (c1 :: r) with
        | .ok (ms, r1) => .ok (.obj ms, r1)
        | .error e => .error e
  else
    match skipSpace cs with
    | [] => .error .short
    | c1 :: r =>
      if c1 = ']' then .ok (.arr [], r)
      else
        match scanElems pv (r.length + 2) (c1 :: r) with
        | .ok (vs, r1) => .ok (.arr vs, r1)
        | .error e => .error e

/-- One JSON value off the front of a text that does not start with a blank;
the first argument is the number of containers that may still be opened. -/
def parseValue : Nat → List Char → Scan JSON
  | _, [] => .error .short
  | 0, c :: cs =>
    if c = '{' ∨ c = '[' then .error .depth else scanScalar c cs
  | d + 1, c :: cs =>
    if c = '{' ∨ c = '[' then scanContainer (parseValue d) c cs else scanScalar c cs

/-- The first value of a text: leading blanks, then one value. -/
def scanValue (cs : List Char) : Scan JSON :=
  parseValue maxNestingDepth (skipSpace cs)

/-! ## encoding/json: Unmarshal, Decoder.Decode and the stores -/

/-- The errors of `encoding/json` and of the reader under a `Decoder`:
`*json.SyntaxError`, `*json.UnmarshalTypeError` (with the JSON value it names),
`io.EOF`, `io.ErrUnexpectedEOF`, and an error of the body stream. -/
inductive JSONError where
  | SyntaxError
  | UnmarshalTypeError (value : String)
  | EOF
  | ErrUnexpectedEOF
  | readError (e : String)
  deriving DecidableEq, Repr

/-- The validity check `json.Unmarshal` starts with (`checkValid`): the whole
text is one value between blanks.  The value scanned is handed on to the
stores. -/
def checkValid (data : List Char) : Except JSONError JSON :=
  match scanValue data with
  | .ok (v, r) => if skipSpace r = [] then .ok v else .error .SyntaxError
  | .error _ => .error .SyntaxError

/-- `json.Valid`. -/
def Valid (data : List Char) : Bool :=
  match checkValid data with
  | .ok _ => true
  | .error _ => false

def JSON.isContainer : JSON → Bool
  | .arr _ => true
  | .obj _ => true
  | _ => false

/-- The value `Decoder.Decode` reads off a body stream (`readValue`): the first
value of the data, whatever follows it.  An array or object ends at its closing
character; any other value ends at the byte after it or at the end of file, so
at the end of the data it is complete only when the stream ends cleanly.  When
the data end inside the value the stream's error is returned, and for a clean
end `io.EOF` (only blanks were read) or `io.ErrUnexpectedEOF`. -/
def readValue (resp : Response) : Except JSONError JSON :=
  match scanValue resp.Body.toList with
  | .ok (v, r) =>
    if v.isContainer ∨ r ≠ [] then .ok v
    else
      match resp.ReadErr with
      | none => .ok v
      | some e => .error (.readError e)
  | .error .short =>
    match resp.ReadErr with
    | some e => .error (.readError e)
    | none =>
      if skipSpace resp.Body.toList = [] then .error .EOF else .error .ErrUnexpectedEOF
  | .error _ => .error .SyntaxError

/-- The name of a value's kind in an `UnmarshalTypeError`. -/
def JSON.kindName : JSON → String
  | .null => "null"
  | .bool _ => "bool"
  | .num _ => "number"
  | .str _ => "string"
  | .arr _ => "array"
  | .obj _ => "object"

/-- The decoder keeps the first error it meets and goes on (`saveError`). -/
def saveError (saved : Option JSONError) (e : Option JSONError) : Option JSONError :=
  match saved with
  | some x => some x
  | none => e

/-- Case folding of one character of an object key (`foldName`): ASCII letters
to upper case, the Kelvin sign to `K` and the long s to `S`; no other
character folds to an ASCII one. -/
def foldRune (c : Char) : Char :=
  if c = Char.ofNat 0x212A then 'K'
  else if c = Char.ofNat 0x017F then 'S'
  else c.toUpper

def foldName (s : List Char) : List Char := s.map foldRune

/-- Whether an object key selects the struct field with this JSON name: the
same name up to case folding. -/
def fieldMatches (name : String) (key : List Char) : Bool :=
  foldName key = foldName name.toList

/-- Store a value into a `string` field: a JSON string is stored, `null` leaves
the field as it is, anything else is a type error. -/
def storeString (cur : String) (v : JSON) : String × Option JSONError :=
  match v with
  | .str s => (String.mk s, none)
  | .null => (cur, none)
  | v => (cur, some (.UnmarshalTypeError v.kindName))

/-- `strconv.ParseInt(lit, 10, 64)` on the text of a JSON number: an optional
minus sign and digits only, with a value in the range of `int64`. -/
def parseInt64 (lit : List Char) : Option Int :=
  let neg := lit.head? = some '-'
  let ds := if neg then lit.tail else lit
  if ds ≠ [] ∧ ds.all Char.isDigit = true then
    let n : Nat := ds.foldl (fun a c => a * 10 + (c.toNat - 48)) 0
    let i : Int := if neg then -(n : Int) else (n : Int)
    if -(2 : Int) ^ 63 ≤ i ∧ i < (2 : Int) ^ 63 then some i else none
  else none

/-- Store a value into an `int64` field: a JSON number whose text is an integer
in range is stored, `null` leaves the field as it is, anything else is a type
error. -/
def storeInt64 (cur : Int) (v : JSON) : Int × Option JSONError :=
  match v with
  | .num lit =>
    match parseInt64 lit with
    | some n => (n, none)
    | none => (cur, some (.UnmarshalTypeError ("number " ++ String.mk lit)))
  | .null => (cur, none)
  | v => (cur, some (.UnmarshalTypeError v.kindName))

/-- The step of `decodeStruct` over one member of an object: the store into the
struct, and the first error so far. -/
def memberStep {σ : Type} (setField : σ → List Char → JSON → σ × Option JSONError)
    (st : σ × Option JSONError) (m : List Char × JSON) : σ × Option JSONError :=
  ((setField st.1 m.1 m.2).1, saveError st.2 (setField st.1 m.1 m.2).2)

/-- Decode a value into a struct that starts as `zero`: the members of an
object are stored one after the other by `setField`, `null` leaves the struct
as it is, any other value is a type error.  The first error is the one
returned. -/
def decodeStruct {σ : Type} (setField : σ → List Char → JSON → σ × Option JSONError)
    (zero : σ) (v : JSON) : σ × Option JSONError :=
  match v with
  | .obj ms =>
    ms.foldl (memberStep setField) (zero, none)
  | .null => (zero, none)
  | v => (zero, some (.UnmarshalTypeError v.kindName))

/-- The error result of a decode, or the struct when there is none. -/
def decoded {σ : Type} (r : σ × Option JSONError) : Except JSONError σ :=
  match r.2 with
  | some e => .error e
  | none => .ok r.1

/-! ## client/tronclient.go -/

/-- What the client's calls into the standard library depend on besides their
arguments: the verdict of `url.Parse` on a URL text (`some e` is its error) and
`json.Marshal` of the transfer payload
`(to_address, owner_address, amount, visible)`. -/
structure Stdlib where
  urlParse : String → Option String
  marshalPayload : String → String → Int → Bool → Except String String

/-- `validMethod` of net/http: a token. -/
def validMethod (method : String) : Bool :=
  method.length > 0 && method.toList.all validHeaderFieldByte

/-- `http.NewRequest`: refuses a method that is no token and a URL that does
not parse; the request starts with no header. -/
def NewRequest (std : Stdlib) (method url : String) (body : Option String) :
    Except String Request :=
  let method := if method = "" then "GET" else method
  if ¬ validMethod method then .error ("net/http: invalid method " ++ method)
  else
    match std.urlParse url with
    | some e => .error e
    | none => .ok { Method := method, URL := url, Header := [], Body := body }

/-- TronClient holds the configuration and HTTP client for making requests to
the tron network.  The HTTP client is its `Do`: what comes back for a request,
a response or a transport error. -/
structure TronClient where
  Config : TronConfig
  HttpClient : Request → Except String Response

/-- Account represents a TRON network account, including its basic
properties. -/
structure Account where
  Address : String
  Balance : Int
  PublicKey : String
  deriving DecidableEq, Repr

/-- NewTronClient creates a new TronClient with the provided configuration;
`transport` is the behaviour of the default HTTP client. -/
def NewTronClient (cfg : TronConfig) (transport : Request → Except String Response) :
    TronClient :=
  { Config := cfg, HttpClient := transport }

/-- The errors the operations return, one constructor for each `fmt.Errorf`
format: `creating request: %w`, `marshalling payload: %w`,
`sending request: %w`, `reading response body: %w`,
`unmarshalling response: %w`, `decoding response: %w` and
`transaction ID is empty, response: %s`.  An operation that returns
`.error e` returns the zero value of its result type with `e` in Go. -/
inductive OpError where
  | creatingRequest (e : String)
  | marshallingPayload (e : String)
  | sendingRequest (e : String)
  | readingResponseBody (e : String)
  | unmarshallingResponse (e : JSONError)
  | decodingResponse (e : JSONError)
  | transactionIDEmpty (body : String)
  deriving DecidableEq, Repr

/-- The headers every operation adds: the content type, and the API key when
the configuration has one. -/
def addCommonHeaders (c : TronClient) (req : Request) : Request :=
  let req := { req with Header := req.Header.Add "Content-Type" "application/json" }
  if c.Config.APIKey ≠ "" then
    { req with Header := req.Header.Add "TRON-PRO-API-KEY" c.Config.APIKey }
  else req

/-- The struct `GetAccountBalance` decodes into. -/
structure BalanceResult where
  Balance : Int
  deriving DecidableEq, Repr

def BalanceResult.setField (r : BalanceResult) (key : List Char) (v : JSON) :
    BalanceResult × Option JSONError :=
  if fieldMatches "balance" key then
    ({ r with Balance := (storeInt64 r.Balance v).1 }, (storeInt64 r.Balance v).2)
  else (r, none)

/-- The struct `TransferTRX` and `BroadcastTransaction` decode into. -/
structure TxResult where
  TxID : String
  deriving DecidableEq, Repr

def TxResult.setField (r : TxResult) (key : List Char) (v : JSON) :
    TxResult × Option JSONError :=
  if fieldMatches "txID" key then
    ({ r with TxID := (storeString r.TxID v).1 }, (storeString r.TxID v).2)
  else (r, none)

def Account.setField (r : Account) (key : List Char) (v : JSON) :
    Account × Option JSONError :=
  if fieldMatches "address" key then
    ({ r with Address := (storeString r.Address v).1 }, (storeString r.Address v).2)
  else if fieldMatches "balance" key then
    ({ r with Balance := (storeInt64 r.Balance v).1 }, (storeInt64 r.Balance v).2)
  else if fieldMatches "public_key" key then
    ({ r with PublicKey := (storeString r.PublicKey v).1 }, (storeString r.PublicKey v).2)
  else (r, none)

/-- The request `GetAccountBalance` builds (lines 40 to 50). -/
def GetAccountBalance.request (std : Stdlib) (c : TronClient) (address : String) :
    Except OpError Request :=
  let url := c.Config.NetworkURL ++ "/wallet/getaccount"
  let requestBody := "\x7b\"address\": \"" ++ address ++ "\", \"visible\": true\x7d"
  match NewRequest std "POST" url (some requestBody) with
  | .error e => .error (.creatingRequest e)
  | .ok req => .ok (addCommonHeaders c req)

/-- What `GetAccountBalance` makes of the response (lines 58 to 71). -/
def GetAccountBalance.result (resp : Response) : Except OpError Int :=
  match ReadAll resp with
  | .error e => .error (.readingResponseBody e)
  | .ok body =>
    match (checkValid body.toList).bind
        (fun v => decoded (decodeStruct BalanceResult.setField { Balance := 0 } v)) with
    | .error e => .error (.unmarshallingResponse e)
    | .ok result => .ok result.Balance

/-- GetAccountBalance retrieves the balance of the specified account from the
Tron network. -/
def GetAccountBalance (std : Stdlib) (c : TronClient) (address : String) :
    Except OpError Int :=
  match GetAccountBalance.request std c address with
  | .error e => .error e
  | .ok req =>
    match c.HttpClient req with
    | .error e => .error (.sendingRequest e)
    | .ok resp => GetAccountBalance.result resp

/-- The request `CreateAccount` builds (lines 76 to 85). -/
def CreateAccount.request (std : Stdlib) (c : TronClient) : Except OpError Request :=
  let url := c.Config.NetworkURL ++ "/wallet/createaccount"
  match NewRequest std "POST" url none with
  | .error e => .error (.creatingRequest e)
  | .ok req => .ok (addCommonHeaders c req)

/-- What `CreateAccount` makes of the response (lines 93 to 98). -/
def CreateAccount.result (resp : Response) : Except OpError Account :=
  match (readValue resp).bind
      (fun v => decoded (decodeStruct Account.setField
        { Address := "", Balance := 0, PublicKey := "" } v)) with
  | .error e => .error (.decodingResponse e)
  | .ok account => .ok account

/-- CreateAccount creates a new account on the TRON network. -/
def CreateAccount (std : Stdlib) (c : TronClient) : Except OpError Account :=
  match CreateAccount.request std c with
  | .error e => .error e
  | .ok req =>
    match c.HttpClient req with
    | .error e => .error (.sendingRequest e)
    | .ok resp => CreateAccount.result resp

/-- The request `TransferTRX` builds (lines 105 to 126). -/
def TransferTRX.request (std : Stdlib) (c : TronClient) (fromAddress toAddress : String)
    (amount : Int) : Except OpError Request :=
  match std.marshalPayload toAddress fromAddress amount true with
  | .error e => .error (.marshallingPayload e)
  | .ok payloadBytes =>
    let url := c.Config.NetworkURL ++ "/wallet/createtransaction"
    match NewRequest std "POST" url (some payloadBytes) with
    | .error e => .error (.creatingRequest e)
    | .ok req =>
      let req := { req with Header := req.Header.Add "accept" "application/json" }
      .ok (addCommonHeaders c req)

/-- What `TransferTRX` makes of the response (lines 134 to 151). -/
def TransferTRX.result (resp : Response) : Except OpError String :=
  match ReadAll resp with
  | .error e => .error (.readingResponseBody e)
  | .ok body =>
    match (checkValid body.toList).bind
        (fun v => decoded (decodeStruct TxResult.setField { TxID := "" } v)) with
    | .error e => .error (.unmarshallingResponse e)
    | .ok response =>
      if response.TxID = "" then .error (.transactionIDEmpty body)
      else .ok response.TxID

/-- TransferTRX prepare a transaction to transfer TRX from one account to
another. -/
def TransferTRX (std : Stdlib) (c : TronClient) (fromAddress toAddress : String)
    (amount : Int) : Except OpError String :=
  match TransferTRX.request std c fromAddress toAddress amount with
  | .error e => .error e
  | .ok req =>
    match c.HttpClient req with
    | .error e => .error (.sendingRequest e)
    | .ok res => TransferTRX.result res

/-- The request `BroadcastTransaction` builds (lines 156 to 166). -/
def BroadcastTransaction.request (std : Stdlib) (c : TronClient) (signedTx : String) :
    Except OpError Request :=
  let url := c.Config.NetworkURL ++ "/wallet/broadcasttransaction"
  let requestBody := "\x7b\"raw_data_hex\": \"" ++ signedTx ++ "\"\x7d"
  match NewRequest std "POST" url (some requestBody) with
  | .error e => .error (.creatingRequest e)
  | .ok req => .ok (addCommonHeaders c req)

/-- What `BroadcastTransaction` makes of the response (lines 174 to 182). -/
def BroadcastTransaction.result (resp : Response) : Except OpError String :=
  match (readValue resp).bind
      (fun v => decoded (decodeStruct TxResult.setField { TxID := "" } v)) with
  | .error e => .error (.decodingResponse e)
  | .ok result => .ok result.TxID

/-- BroadcastTransaction sends a signed transaction to the TRON network. -/
def BroadcastTransaction (std : Stdlib) (c : TronClient) (signedTx : String) :
    Except OpError String :=
  match BroadcastTransaction.request std c signedTx with
  | .error e => .error e
  | .ok req =>
    match c.HttpClient req with
    | .error e => .error (.sendingRequest e)
    | .ok resp => BroadcastTransaction.result resp

/-! ## The calls, and what the statements below speak of -/

/-- One call of the client: an operation with its arguments. -/
inductive Call where
  | getAccountBalance (address : String)
  | createAccount
  | transferTRX (fromAddress toAddress : String) (amount : Int)
  | broadcastTransaction (signedTx : String)
  deriving DecidableEq, Repr

/-- The request a call hands to the HTTP client, or the error it returns
before sending anything. -/
def Call.request (std : Stdlib) (c : TronClient) : Call → Except OpError Request
  | .getAccountBalance address => GetAccountBalance.request std c address
  | .createAccount => CreateAccount.request std c
  | .transferTRX fromAddress toAddress amount =>
    TransferTRX.request std c fromAddress toAddress amount
  | .broadcastTransaction signedTx => BroadcastTransaction.request std c signedTx

/-- The endpoint path the specification gives for each operation. -/
def Call.path : Call → String
  | .getAccountBalance _ => "/wallet/getaccount"
  | .createAccount => "/wallet/createaccount"
  | .transferTRX _ _ _ => "/wallet/createtransaction"
  | .broadcastTransaction _ => "/wallet/broadcasttransaction"

/-- The values of the members of an object that the decoder stores into the
field with this JSON name, in the order of the members. -/
def fieldValues (name : String) (ms : List (List Char × JSON)) : List JSON :=
  (ms.filter (fun m => fieldMatches name m.1)).map Prod.snd

/-- A standard library whose `url.Parse` accepts every text and whose
`json.Marshal` writes the payload with its keys in order (texts that need no
escaping). -/
def sampleStd : Stdlib where
  urlParse := fun _ => none
  marshalPayload := fun toAddress fromAddress amount visible =>
    .ok ("\x7b\"amount\":" ++ toString amount ++ ",\"owner_address\":\"" ++ fromAddress
      ++ "\",\"to_address\":\"" ++ toAddress ++ "\",\"visible\":" ++ toString visible ++ "\x7d")

/-- A client whose HTTP client answers every request with the same body,
read to its end without error. -/
def mockClient (network apiKey body : String) : TronClient :=
  NewTronClient (NewTronConfig network apiKey) (fun _ => .ok { Body := body, ReadErr := none })

/-- The headers an operation sets before the common ones. -/
def Call.ownHeaders : Call → Header
  | .transferTRX _ _ _ => [("Accept", ["application/json"])]
  | _ => []

/-- Whether the header map has an entry for the key (`_, ok := h[key]` with the
canonical key). -/
def Header.Has (h : Header) (key : String) : Bool :=
  (h.lookup (CanonicalMIMEHeaderKey key)).isSome

/-- The error a member gives when it is stored into an account. -/
def accountError (m : List Char × JSON) : Option JSONError :=
  if fieldMatches "address" m.1 then (storeString "" m.2).2
  else if fieldMatches "balance" m.1 then (storeInt64 0 m.2).2
  else if fieldMatches "public_key" m.1 then (storeString "" m.2).2
  else none

/-- A scanner that takes at least one character off the text when it succeeds,
and that never stops for lack of loop fuel. -/
def Consumes {α : Type} (p : List Char → Scan α) : Prop :=
  ∀ cs, p cs ≠ .error .fuel ∧ ∀ v r, p cs = .ok (v, r) → r.length < cs.length

/-- A scanner that leaves no more than it was given when it succeeds, and that
never stops for lack of loop fuel. -/
def NoGrowth {α : Type} (p : List Char → Scan α) : Prop :=
  ∀ cs, p cs ≠ .error .fuel ∧ ∀ v r, p cs = .ok (v, r) → r.length ≤ cs.length

/-- A character that a JSON string literal holds as it is: no quote, no
backslash, no control character. -/
def plainChar (c : Char) : Bool :=
  c ≠ '"' && c ≠ '\\' && 0x20 ≤ c.toNat

/-! ## Header keys -/

theorem canonical_content_type : CanonicalMIMEHeaderKey "Content-Type" = "Content-Type" := by
  decide

theorem canonical_api_key : CanonicalMIMEHeaderKey "TRON-PRO-API-KEY" = "Tron-Pro-Api-Key" := by
  decide

theorem canonical_accept : CanonicalMIMEHeaderKey "accept" = "Accept" := by
  decide

theorem validMethod_post : validMethod "POST" = true := by decide

/-- The headers of a request that started with none, after the headers every
operation adds. -/
theorem addCommonHeaders_empty (c : TronClient) (req : Request) (h : req.Header = []) :
    (addCommonHeaders c req).Header =
      ("Content-Type", ["application/json"]) ::
        (if c.Config.APIKey = "" then [] else [("Tron-Pro-Api-Key", [c.Config.APIKey])]) := by
  unfold addCommonHeaders
  by_cases hk : c.Config.APIKey = ""
  · simp [hk, h, Header.Add, Header.addCanonical, canonical_content_type]
  · simp [hk, h, Header.Add, Header.addCanonical, canonical_content_type, canonical_api_key]

theorem addCommonHeaders_method (c : TronClient) (req : Request) :
    (addCommonHeaders c req).Method = req.Method ∧ (addCommonHeaders c req).URL = req.URL ∧
      (addCommonHeaders c req).Body = req.Body := by
  unfold addCommonHeaders
  by_cases hk : c.Config.APIKey = "" <;> simp [hk]

/-- What `NewRequest` returns for the method POST. -/
theorem NewRequest_post (std : Stdlib) (url : String) (body : Option String) :
    NewRequest std "POST" url body =
      match std.urlParse url with
      | some e => .error e
      | none => .ok { Method := "POST", URL := url, Header := [], Body := body } := by
  simp [NewRequest, validMethod_post]

theorem addCommonHeaders_accept (c : TronClient) (req : Request)
    (h : req.Header = [("Accept", ["application/json"])]) :
    (addCommonHeaders c req).Header =
      ("Accept", ["application/json"]) :: ("Content-Type", ["application/json"]) ::
        (if c.Config.APIKey = "" then [] else [("Tron-Pro-Api-Key", [c.Config.APIKey])]) := by
  unfold addCommonHeaders
  by_cases hk : c.Config.APIKey = ""
  · simp [hk, h, Header.Add, Header.addCanonical, canonical_content_type]
  · simp [hk, h, Header.Add, Header.addCanonical, canonical_content_type, canonical_api_key]

/-- Method, URL and headers of the request of any call. -/
theorem request_shape (std : Stdlib) (c : TronClient) (call : Call) (req : Request)
    (h : call.request std c = .ok req) :
    req.Method = "POST" ∧ req.URL = c.Config.NetworkURL ++ call.path ∧
      req.Header = call.ownHeaders ++ (("Content-Type", ["application/json"]) ::
        (if c.Config.APIKey = "" then [] else [("Tron-Pro-Api-Key", [c.Config.APIKey])])) := by
  cases call with
  | getAccountBalance address =>
    simp only [Call.request, GetAccountBalance.request, NewRequest_post] at h
    cases hu : std.urlParse (c.Config.NetworkURL ++ "/wallet/getaccount") with
    | some e => simp [hu] at h
    | none =>
      simp only [hu, Except.ok.injEq] at h
      subst h
      exact ⟨(addCommonHeaders_method c _).1, (addCommonHeaders_method c _).2.1,
        addCommonHeaders_empty c _ rfl⟩
  | createAccount =>
    simp only [Call.request, CreateAccount.request, NewRequest_post] at h
    cases hu : std.urlParse (c.Config.NetworkURL ++ "/wallet/createaccount") with
    | some e => simp [hu] at h
    | none =>
      simp only [hu, Except.ok.injEq] at h
      subst h
      exact ⟨(addCommonHeaders_method c _).1, (addCommonHeaders_method c _).2.1,
        addCommonHeaders_empty c _ rfl⟩
  | transferTRX fromAddress toAddress amount =>
    simp only [Call.request, TransferTRX.request, NewRequest_post] at h
    cases hm : std.marshalPayload toAddress fromAddress amount true with
    | error e => simp [hm] at h
    | ok payloadBytes =>
      cases hu : std.urlParse (c.Config.NetworkURL ++ "/wallet/createtransaction") with
      | some e => simp [hm, hu] at h
      | none =>
        simp only [hm, hu, Except.ok.injEq] at h
        subst h
        refine ⟨(addCommonHeaders_method c _).1, (addCommonHeaders_method c _).2.1, ?_⟩
        exact addCommonHeaders_accept c _
          (by simp [Header.Add, Header.addCanonical, canonical_accept])
  | broadcastTransaction signedTx =>
    simp only [Call.request, BroadcastTransaction.request, NewRequest_post] at h
    cases hu : std.urlParse (c.Config.NetworkURL ++ "/wallet/broadcasttransaction") with
    | some e => simp [hu] at h
    | none =>
      simp only [hu, Except.ok.injEq] at h
      subst h
      exact ⟨(addCommonHeaders_method c _).1, (addCommonHeaders_method c _).2.1,
        addCommonHeaders_empty c _ rfl⟩

/-! ## Decoding an object into a struct -/

theorem saveError_none (e : Option JSONError) : saveError e none = e := by
  cases e <;> rfl

theorem decodeStruct_obj {σ : Type} (setField : σ → List Char → JSON → σ × Option JSONError)
    (zero : σ) (ms : List (List Char × JSON)) :
    decodeStruct setField zero (.obj ms) = ms.foldl (memberStep setField) (zero, none) := rfl

/-- A member whose key selects the field has its value among the field's
values. -/
theorem mem_fieldValues (name : String) (ms : List (List Char × JSON)) (m : List Char × JSON)
    (hm : m ∈ ms) (hsel : fieldMatches name m.1 = true) : m.2 ∈ fieldValues name ms := by
  unfold fieldValues
  exact List.mem_map.2 ⟨m, List.mem_filter.2 ⟨hm, by simpa using hsel⟩, rfl⟩

theorem fieldValues_cons (name : String) (m : List Char × JSON) (ms : List (List Char × JSON)) :
    fieldValues name (m :: ms) =
      if fieldMatches name m.1 then m.2 :: fieldValues name ms else fieldValues name ms := by
  unfold fieldValues
  by_cases h : fieldMatches name m.1 = true <;> simp [List.filter_cons, h]

/-- A struct with one decoded field: members that do not select the field
leave the state as it is. -/
theorem fold_one_field_none {σ : Type} (setField : σ → List Char → JSON → σ × Option JSONError)
    (name : String) (f : σ → JSON → σ) (g : σ → JSON → Option JSONError)
    (hset : ∀ r k v, setField r k v = if fieldMatches name k then (f r v, g r v) else (r, none)) :
    ∀ (ms : List (List Char × JSON)) (st : σ × Option JSONError),
      fieldValues name ms = [] → ms.foldl (memberStep setField) st = st := by
  intro ms
  induction ms with
  | nil => intro st _; rfl
  | cons m ms ih =>
    intro st h
    rw [fieldValues_cons] at h
    by_cases hs : fieldMatches name m.1 = true
    · simp [hs] at h
    · simp only [hs] at h
      rw [List.foldl_cons]
      have : memberStep setField st m = st := by
        simp [memberStep, hset, hs, saveError_none]
      rw [this]
      exact ih st h

/-- A struct with one decoded field, and an object with one member for it:
the state after the members is the state after that one store. -/
theorem fold_one_field_single {σ : Type}
    (setField : σ → List Char → JSON → σ × Option JSONError)
    (name : String) (f : σ → JSON → σ) (g : σ → JSON → Option JSONError)
    (hset : ∀ r k v, setField r k v = if fieldMatches name k then (f r v, g r v) else (r, none)) :
    ∀ (ms : List (List Char × JSON)) (st : σ × Option JSONError) (v : JSON),
      fieldValues name ms = [v] →
        ms.foldl (memberStep setField) st = (f st.1 v, saveError st.2 (g st.1 v)) := by
  intro ms
  induction ms with
  | nil => intro st v h; simp [fieldValues] at h
  | cons m ms ih =>
    intro st v h
    rw [fieldValues_cons] at h
    by_cases hs : fieldMatches name m.1 = true
    · simp only [hs, if_true, List.cons.injEq] at h
      rw [List.foldl_cons, fold_one_field_none setField name f g hset ms _ h.2]
      simp [memberStep, hset, hs, h.1]
    · simp only [hs] at h
      rw [List.foldl_cons]
      have : memberStep setField st m = st := by
        simp [memberStep, hset, hs, saveError_none]
      rw [this]
      exact ih st v h

theorem txResult_setField_eq (r : TxResult) (k : List Char) (v : JSON) :
    TxResult.setField r k v =
      if fieldMatches "txID" k then
        ((fun r v => ({ TxID := (storeString r.TxID v).1 } : TxResult)) r v,
          (fun r v => (storeString r.TxID v).2) r v)
      else (r, none) := rfl

theorem balanceResult_setField_eq (r : BalanceResult) (k : List Char) (v : JSON) :
    BalanceResult.setField r k v =
      if fieldMatches "balance" k then
        ((fun r v => ({ Balance := (storeInt64 r.Balance v).1 } : BalanceResult)) r v,
          (fun r v => (storeInt64 r.Balance v).2) r v)
      else (r, none) := rfl

/-- Decoding an object with one member for `txID` into the transaction
struct. -/
theorem decode_tx_single (ms : List (List Char × JSON)) (v : JSON)
    (h : fieldValues "txID" ms = [v]) :
    decodeStruct TxResult.setField { TxID := "" } (.obj ms) =
      ({ TxID := (storeString "" v).1 }, (storeString "" v).2) := by
  rw [decodeStruct_obj, fold_one_field_single TxResult.setField "txID" _ _ txResult_setField_eq ms _ v h]
  rfl

/-- Decoding an object with no member for `txID` into the transaction
struct. -/
theorem decode_tx_none (ms : List (List Char × JSON)) (h : fieldValues "txID" ms = []) :
    decodeStruct TxResult.setField { TxID := "" } (.obj ms) = ({ TxID := "" }, none) := by
  rw [decodeStruct_obj, fold_one_field_none TxResult.setField "txID" _ _ txResult_setField_eq ms _ h]

theorem decode_balance_single (ms : List (List Char × JSON)) (v : JSON)
    (h : fieldValues "balance" ms = [v]) :
    decodeStruct BalanceResult.setField { Balance := 0 } (.obj ms) =
      ({ Balance := (storeInt64 0 v).1 }, (storeInt64 0 v).2) := by
  rw [decodeStruct_obj,
    fold_one_field_single BalanceResult.setField "balance" _ _ balanceResult_setField_eq ms _ v h]
  rfl

theorem decode_balance_none (ms : List (List Char × JSON)) (h : fieldValues "balance" ms = []) :
    decodeStruct BalanceResult.setField { Balance := 0 } (.obj ms) = ({ Balance := 0 }, none) := by
  rw [decodeStruct_obj,
    fold_one_field_none BalanceResult.setField "balance" _ _ balanceResult_setField_eq ms _ h]

/-- One field of a struct with several: members that do not select the field
leave it as it is. -/
theorem fold_proj_none {σ β : Type}
    (step : σ × Option JSONError → List Char × JSON → σ × Option JSONError)
    (proj : σ → β) (name : String) (store : β → JSON → β)
    (hstep : ∀ st m, proj (step st m).1 =
      if fieldMatches name m.1 then store (proj st.1) m.2 else proj st.1) :
    ∀ (ms : List (List Char × JSON)) (st : σ × Option JSONError),
      fieldValues name ms = [] → proj (ms.foldl step st).1 = proj st.1 := by
  intro ms
  induction ms with
  | nil => intro st _; rfl
  | cons m ms ih =>
    intro st h
    rw [fieldValues_cons] at h
    by_cases hs : fieldMatches name m.1 = true
    · simp [hs] at h
    · simp only [hs] at h
      rw [List.foldl_cons, ih _ h, hstep]
      simp [hs]

/-- One field of a struct with several, and an object with one member for
it: the field holds what that one store leaves. -/
theorem fold_proj_single {σ β : Type}
    (step : σ × Option JSONError → List Char × JSON → σ × Option JSONError)
    (proj : σ → β) (name : String) (store : β → JSON → β)
    (hstep : ∀ st m, proj (step st m).1 =
      if fieldMatches name m.1 then store (proj st.1) m.2 else proj st.1) :
    ∀ (ms : List (List Char × JSON)) (st : σ × Option JSONError) (v : JSON),
      fieldValues name ms = [v] → proj (ms.foldl step st).1 = store (proj st.1) v := by
  intro ms
  induction ms with
  | nil => intro st v h; simp [fieldValues] at h
  | cons m ms ih =>
    intro st v h
    rw [fieldValues_cons] at h
    by_cases hs : fieldMatches name m.1 = true
    · simp only [hs, if_true, List.cons.injEq] at h
      rw [List.foldl_cons, fold_proj_none step proj name store hstep ms _ h.2, hstep]
      simp [hs, h.1]
    · simp only [hs] at h
      rw [List.foldl_cons, ih _ v h, hstep]
      simp [hs]

/-- When no member gives an error, the error after the members is the error
before them. -/
theorem fold_no_error {σ : Type}
    (step : σ × Option JSONError → List Char × JSON → σ × Option JSONError)
    (err : List Char × JSON → Option JSONError)
    (hstep : ∀ st m, (step st m).2 = saveError st.2 (err m)) :
    ∀ (ms : List (List Char × JSON)) (st : σ × Option JSONError),
      (∀ m ∈ ms, err m = none) → (ms.foldl step st).2 = st.2 := by
  intro ms
  induction ms with
  | nil => intro st _; rfl
  | cons m ms ih =>
    intro st h
    rw [List.foldl_cons, ih _ (fun x hx => h x (List.mem_cons_of_mem _ hx)), hstep,
      h m (List.mem_cons_self _ _), saveError_none]

/-- A key selects at most one of two fields whose names fold differently. -/
theorem fieldMatches_exclusive (a b : String) (k : List Char)
    (hab : foldName a.toList ≠ foldName b.toList) (ha : fieldMatches a k = true) :
    fieldMatches b k = false := by
  unfold fieldMatches at *
  simp only [decide_eq_true_eq] at ha
  simp only [decide_eq_false_iff_not]
  intro hb
  exact hab (ha.symm.trans hb)

theorem fold_address_ne_balance : foldName "address".toList ≠ foldName "balance".toList := by
  decide

theorem fold_address_ne_public_key :
    foldName "address".toList ≠ foldName "public_key".toList := by
  decide

theorem fold_balance_ne_public_key :
    foldName "balance".toList ≠ foldName "public_key".toList := by
  decide

/-- The error of a store into a string field depends on the value only. -/
theorem storeString_error (cur : String) (v : JSON) :
    (storeString cur v).2 = (storeString "" v).2 := by
  cases v <;> rfl

/-- The error of a store into an integer field depends on the value only. -/
theorem storeInt64_error (cur : Int) (v : JSON) :
    (storeInt64 cur v).2 = (storeInt64 0 v).2 := by
  cases v with
  | num lit =>
    simp only [storeInt64]
    cases parseInt64 lit <;> rfl
  | _ => rfl

theorem account_step_error (st : Account × Option JSONError) (m : List Char × JSON) :
    (memberStep Account.setField st m).2 = saveError st.2 (accountError m) := by
  unfold memberStep Account.setField accountError
  split_ifs <;> simp [storeString_error st.1.Address, storeString_error st.1.PublicKey,
    storeInt64_error st.1.Balance]

theorem account_step_address (st : Account × Option JSONError) (m : List Char × JSON) :
    (memberStep Account.setField st m).1.Address =
      if fieldMatches "address" m.1 then (storeString st.1.Address m.2).1 else st.1.Address := by
  unfold memberStep Account.setField
  split_ifs <;> rfl

theorem account_step_balance (st : Account × Option JSONError) (m : List Char × JSON) :
    (memberStep Account.setField st m).1.Balance =
      if fieldMatches "balance" m.1 then (storeInt64 st.1.Balance m.2).1 else st.1.Balance := by
  unfold memberStep Account.setField
  by_cases ha : fieldMatches "address" m.1 = true
  · simp [ha, fieldMatches_exclusive "address" "balance" m.1 fold_address_ne_balance ha]
  · split_ifs <;> rfl

theorem account_step_public_key (st : Account × Option JSONError) (m : List Char × JSON) :
    (memberStep Account.setField st m).1.PublicKey =
      if fieldMatches "public_key" m.1 then (storeString st.1.PublicKey m.2).1
      else st.1.PublicKey := by
  unfold memberStep Account.setField
  by_cases ha : fieldMatches "address" m.1 = true
  · simp [ha, fieldMatches_exclusive "address" "public_key" m.1 fold_address_ne_public_key ha]
  · by_cases hb : fieldMatches "balance" m.1 = true
    · simp [ha, hb, fieldMatches_exclusive "balance" "public_key" m.1 fold_balance_ne_public_key hb]
    · split_ifs <;> rfl

/-- Decoding an object with one member for each field of an account, a
string, an integer in range and a string. -/
theorem decode_account (ms : List (List Char × JSON)) (a p : String) (lit : List Char) (b : Int)
    (ha : fieldValues "address" ms = [.str a.toList])
    (hb : fieldValues "balance" ms = [.num lit]) (hlit : parseInt64 lit = some b)
    (hp : fieldValues "public_key" ms = [.str p.toList]) :
    decodeStruct Account.setField { Address := "", Balance := 0, PublicKey := "" } (.obj ms) =
      ({ Address := a, Balance := b, PublicKey := p }, none) := by
  rw [decodeStruct_obj]
  have h1 := fold_proj_single (memberStep Account.setField) Account.Address "address"
    (fun cur v => (storeString cur v).1) account_step_address ms
    ({ Address := "", Balance := 0, PublicKey := "" }, none) _ ha
  have h2 := fold_proj_single (memberStep Account.setField) Account.Balance "balance"
    (fun cur v => (storeInt64 cur v).1) account_step_balance ms
    ({ Address := "", Balance := 0, PublicKey := "" }, none) _ hb
  have h3 := fold_proj_single (memberStep Account.setField) Account.PublicKey "public_key"
    (fun cur v => (storeString cur v).1) account_step_public_key ms
    ({ Address := "", Balance := 0, PublicKey := "" }, none) _ hp
  have h4 := fold_no_error (memberStep Account.setField) accountError account_step_error ms
    ({ Address := "", Balance := 0, PublicKey := "" }, none) (by
      intro m hm
      unfold accountError
      by_cases h1 : fieldMatches "address" m.1 = true
      · have := mem_fieldValues "address" ms m hm h1
        rw [ha, List.mem_singleton] at this
        simp [h1, this, storeString]
      · by_cases h2 : fieldMatches "balance" m.1 = true
        · have := mem_fieldValues "balance" ms m hm h2
          rw [hb, List.mem_singleton] at this
          simp [h1, h2, this, storeInt64, hlit]
        · by_cases h3 : fieldMatches "public_key" m.1 = true
          · have := mem_fieldValues "public_key" ms m hm h3
            rw [hp, List.mem_singleton] at this
            simp [h1, h2, h3, this, storeString]
          · simp [h1, h2, h3])
  generalize ms.foldl (memberStep Account.setField)
    ({ Address := "", Balance := 0, PublicKey := "" }, none) = res at h1 h2 h3 h4
  obtain ⟨⟨x, y, z⟩, e⟩ := res
  simp only [storeString, storeInt64, hlit] at h1 h2 h3 h4
  simp [h1, h2, h3, h4]

/-! ## The response side of the operations -/

/-- A body that is one valid JSON value starts with that value. -/
theorem scanValue_of_checkValid (data : List Char) (v : JSON) (h : checkValid data = .ok v) :
    ∃ r, scanValue data = .ok (v, r) := by
  unfold checkValid at h
  cases hs : scanValue data with
  | error e => simp [hs] at h
  | ok x =>
    obtain ⟨v1, r⟩ := x
    simp only [hs] at h
    split_ifs at h
    simp only [Except.ok.injEq] at h
    exact ⟨r, by rw [h]⟩

/-- The stream decoder reads an array or object that is the whole body. -/
theorem readValue_of_checkValid (resp : Response) (v : JSON)
    (h : checkValid resp.Body.toList = .ok v) (hc : v.isContainer = true) :
    readValue resp = .ok v := by
  obtain ⟨r, hr⟩ := scanValue_of_checkValid _ _ h
  unfold readValue
  rw [hr]
  simp [hc]

/-- `Valid` is the success of `checkValid`. -/
theorem checkValid_of_not_valid (data : List Char) (h : Valid data = false) :
    checkValid data = .error .SyntaxError := by
  cases hs : scanValue data with
  | error e => simp [checkValid, hs]
  | ok x =>
    have hne : skipSpace x.2 ≠ [] := by
      intro h2
      simp [Valid, checkValid, hs, h2] at h
    simp [checkValid, hs, hne]

theorem TransferTRX_result_object (resp : Response) (ms : List (List Char × JSON))
    (hread : resp.ReadErr = none) (hbody : checkValid resp.Body.toList = .ok (.obj ms)) :
    TransferTRX.result resp =
      match decoded (decodeStruct TxResult.setField { TxID := "" } (.obj ms)) with
      | .error e => .error (.unmarshallingResponse e)
      | .ok response =>
        if response.TxID = "" then .error (.transactionIDEmpty resp.Body)
        else .ok response.TxID := by
  unfold TransferTRX.result ReadAll
  rw [hread]
  simp only []
  rw [hbody]
  rfl

theorem BroadcastTransaction_result_object (resp : Response) (ms : List (List Char × JSON))
    (hbody : checkValid resp.Body.toList = .ok (.obj ms)) :
    BroadcastTransaction.result resp =
      match decoded (decodeStruct TxResult.setField { TxID := "" } (.obj ms)) with
      | .error e => .error (.decodingResponse e)
      | .ok result => .ok result.TxID := by
  unfold BroadcastTransaction.result
  rw [readValue_of_checkValid resp _ hbody rfl]
  rfl

theorem GetAccountBalance_result_value (resp : Response) (v : JSON)
    (hread : resp.ReadErr = none) (hbody : checkValid resp.Body.toList = .ok v) :
    GetAccountBalance.result resp =
      match decoded (decodeStruct BalanceResult.setField { Balance := 0 } v) with
      | .error e => .error (.unmarshallingResponse e)
      | .ok result => .ok result.Balance := by
  unfold GetAccountBalance.result ReadAll
  rw [hread]
  simp only []
  rw [hbody]
  rfl

/-! ## The claims -/

/-- Claim C1. `TransferTRX`, when the round trip succeeds and the response body is
a JSON object with the string `t` as its `txID` member: for the empty `t` it
returns the empty-transaction-ID error, for any other `t` it returns `t` and
no error.  The empty-transaction-ID error is none of the errors returned for
a body that fails to decode, which a body that is not valid JSON gets. -/
theorem TransferTRX_txID (std : Stdlib) (c : TronClient) (fromAddress toAddress : String)
    (amount : Int) (req : Request) (resp : Response) (ms : List (List Char × JSON))
    (t : String)
    (hreq : TransferTRX.request std c fromAddress toAddress amount = .ok req)
    (hdo : c.HttpClient req = .ok resp)
    (hread : resp.ReadErr = none)
    (hbody : checkValid resp.Body.toList = .ok (.obj ms))
    (hfield : fieldValues "txID" ms = [.str t.toList]) :
    (t = "" → TransferTRX std c fromAddress toAddress amount =
        .error (.transactionIDEmpty resp.Body)) ∧
    (t ≠ "" → TransferTRX std c fromAddress toAddress amount = .ok t) ∧
    (∀ e, OpError.transactionIDEmpty resp.Body ≠ OpError.unmarshallingResponse e) ∧
    (∀ resp2 : Response, resp2.ReadErr = none → Valid resp2.Body.toList = false →
      TransferTRX.result resp2 = .error (.unmarshallingResponse .SyntaxError)) := by
  have hres : TransferTRX std c fromAddress toAddress amount =
      if t = "" then .error (.transactionIDEmpty resp.Body) else .ok t := by
    simp only [TransferTRX, hreq, hdo]
    rw [TransferTRX_result_object resp ms hread hbody, decode_tx_single ms _ hfield]
    simp [decoded, storeString]
  refine ⟨?_, ?_, ?_, ?_⟩
  · intro h
    rw [hres, if_pos h]
  · intro h
    rw [hres, if_neg h]
  · intro e h
    cases h
  · intro resp2 hr hv
    unfold TransferTRX.result ReadAll
    rw [hr]
    simp only []
    rw [checkValid_of_not_valid _ hv]
    rfl

/-- The two witnesses of C1: the bodies `{"txID": ""}` and
`{"txID": "abc123"}`. -/
theorem TransferTRX_txID_witness :
    TransferTRX sampleStd (mockClient TRON_SHASTA_TESTNET "K1" "\x7b\"txID\": \"\"\x7d")
        "TFrom" "TTo" 5 = .error (.transactionIDEmpty "\x7b\"txID\": \"\"\x7d") ∧
    TransferTRX sampleStd (mockClient TRON_SHASTA_TESTNET "K1" "\x7b\"txID\": \"abc123\"\x7d")
        "TFrom" "TTo" 5 = .ok "abc123" :=
  ⟨(TransferTRX_txID sampleStd (mockClient TRON_SHASTA_TESTNET "K1" "\x7b\"txID\": \"\"\x7d")
      "TFrom" "TTo" 5 _ _ _ "" rfl rfl rfl rfl rfl).1 rfl,
   (TransferTRX_txID sampleStd
      (mockClient TRON_SHASTA_TESTNET "K1" "\x7b\"txID\": \"abc123\"\x7d")
      "TFrom" "TTo" 5 _ _ _ "abc123" rfl rfl rfl rfl rfl).2.1 (by decide)⟩

/-- Claim C10. `BroadcastTransaction`, for every input, when the response body is
a JSON object: with the string `t` as its `txID` member it returns `t` and no
error, the empty `t` included, and with no `txID` member it returns the empty
string and no error; `TransferTRX` returns the empty-transaction-ID error on
the same response when `t` is empty or the member is missing. -/
theorem BroadcastTransaction_txID (std : Stdlib) (c : TronClient) (signedTx : String)
    (req : Request) (resp : Response) (ms : List (List Char × JSON))
    (hreq : BroadcastTransaction.request std c signedTx = .ok req)
    (hdo : c.HttpClient req = .ok resp)
    (hbody : checkValid resp.Body.toList = .ok (.obj ms)) :
    (∀ t : String, fieldValues "txID" ms = [.str t.toList] →
      BroadcastTransaction std c signedTx = .ok t) ∧
    (fieldValues "txID" ms = [] → BroadcastTransaction std c signedTx = .ok "") ∧
    (∀ (fromAddress toAddress : String) (amount : Int) (req2 : Request),
      TransferTRX.request std c fromAddress toAddress amount = .ok req2 →
      c.HttpClient req2 = .ok resp → resp.ReadErr = none →
      (fieldValues "txID" ms = [.str []] ∨ fieldValues "txID" ms = []) →
      TransferTRX std c fromAddress toAddress amount =
        .error (.transactionIDEmpty resp.Body)) := by
  have hb : BroadcastTransaction std c signedTx =
      match decoded (decodeStruct TxResult.setField { TxID := "" } (.obj ms)) with
      | .error e => .error (.decodingResponse e)
      | .ok result => .ok result.TxID := by
    simp only [BroadcastTransaction, hreq, hdo]
    exact BroadcastTransaction_result_object resp ms hbody
  refine ⟨?_, ?_, ?_⟩
  · intro t ht
    rw [hb, decode_tx_single ms _ ht]
    rfl
  · intro h0
    rw [hb, decode_tx_none ms h0]
    rfl
  · intro fromAddress toAddress amount req2 hreq2 hdo2 hread hcase
    simp only [TransferTRX, hreq2, hdo2]
    rw [TransferTRX_result_object resp ms hread hbody]
    rcases hcase with h1 | h0
    · rw [decode_tx_single ms _ h1]
      rfl
    · rw [decode_tx_none ms h0]
      rfl

/-- C10 on the body `{"txID": ""}`: the broadcast returns the empty string,
the transfer the empty-transaction-ID error. -/
theorem BroadcastTransaction_txID_witness :
    BroadcastTransaction sampleStd
        (mockClient TRON_SHASTA_TESTNET "K1" "\x7b\"txID\": \"\"\x7d") "0a02" = .ok "" ∧
    TransferTRX sampleStd (mockClient TRON_SHASTA_TESTNET "K1" "\x7b\"txID\": \"\"\x7d")
        "TFrom" "TTo" 5 = .error (.transactionIDEmpty "\x7b\"txID\": \"\"\x7d") :=
  ⟨(BroadcastTransaction_txID sampleStd
      (mockClient TRON_SHASTA_TESTNET "K1" "\x7b\"txID\": \"\"\x7d") "0a02" _ _ _
      rfl rfl rfl).1 "" rfl,
   (BroadcastTransaction_txID sampleStd
      (mockClient TRON_SHASTA_TESTNET "K1" "\x7b\"txID\": \"\"\x7d") "0a02" _ _ _
      rfl rfl rfl).2.2 "TFrom" "TTo" 5 _ rfl rfl rfl (Or.inl rfl)⟩

/-- Claim C4, as the code has it. `GetAccountBalance`, when the round trip succeeds,
returns a decode error for a body that is not valid JSON, for a body that is
a JSON value other than an object or `null`, and for an object whose one
`balance` member is neither `null` nor an integer literal in the range of
`int64`; for a valid JSON object with no `balance` member it returns 0 and no
error. -/
theorem GetAccountBalance_decode (std : Stdlib) (c : TronClient) (address : String)
    (req : Request) (resp : Response)
    (hreq : GetAccountBalance.request std c address = .ok req)
    (hdo : c.HttpClient req = .ok resp)
    (hread : resp.ReadErr = none) :
    (Valid resp.Body.toList = false →
      GetAccountBalance std c address = .error (.unmarshallingResponse .SyntaxError)) ∧
    (∀ v, checkValid resp.Body.toList = .ok v → v ≠ .null → (∀ ms, v ≠ .obj ms) →
      GetAccountBalance std c address =
        .error (.unmarshallingResponse (.UnmarshalTypeError v.kindName))) ∧
    (∀ ms v, checkValid resp.Body.toList = .ok (.obj ms) → fieldValues "balance" ms = [v] →
      v ≠ .null → (∀ lit n, v = .num lit → parseInt64 lit ≠ some n) →
      ∃ e, GetAccountBalance std c address = .error (.unmarshallingResponse e)) ∧
    (∀ ms, checkValid resp.Body.toList = .ok (.obj ms) → fieldValues "balance" ms = [] →
      GetAccountBalance std c address = .ok 0) := by
  have hop : GetAccountBalance std c address = GetAccountBalance.result resp := by
    simp only [GetAccountBalance, hreq, hdo]
  refine ⟨?_, ?_, ?_, ?_⟩
  · intro hv
    rw [hop]
    unfold GetAccountBalance.result ReadAll
    rw [hread]
    simp only []
    rw [checkValid_of_not_valid _ hv]
    rfl
  · intro v hv hnull hobj
    rw [hop, GetAccountBalance_result_value resp v hread hv]
    cases v with
    | null => exact absurd rfl hnull
    | obj ms => exact absurd rfl (hobj ms)
    | _ => rfl
  · intro ms v hv hf hnull hnum
    rw [hop, GetAccountBalance_result_value resp _ hread hv, decode_balance_single ms v hf]
    cases v with
    | null => exact absurd rfl hnull
    | num lit =>
      cases hp : parseInt64 lit with
      | some n => exact absurd hp (hnum lit n rfl)
      | none =>
        exact ⟨.UnmarshalTypeError ("number " ++ String.mk lit), by simp [decoded, storeInt64, hp]⟩
    | bool b => exact ⟨_, rfl⟩
    | str x => exact ⟨_, rfl⟩
    | arr xs => exact ⟨_, rfl⟩
    | obj xs => exact ⟨_, rfl⟩
  · intro ms hv hf
    rw [hop, GetAccountBalance_result_value resp _ hread hv, decode_balance_none ms hf]
    rfl

/-- C4 as the code has it, on the bodies `{` (not valid JSON), `[]` (no
object), `{"balance": "7"}` (a string) and `{"address": "T1"}` (no balance
member). -/
theorem GetAccountBalance_decode_witness :
    GetAccountBalance sampleStd (mockClient TRON_SHASTA_TESTNET "K1" "\x7b") "T1" =
      .error (.unmarshallingResponse .SyntaxError) ∧
    GetAccountBalance sampleStd (mockClient TRON_SHASTA_TESTNET "K1" "[]") "T1" =
      .error (.unmarshallingResponse (.UnmarshalTypeError "array")) ∧
    (∃ e, GetAccountBalance sampleStd
      (mockClient TRON_SHASTA_TESTNET "K1" "\x7b\"balance\": \"7\"\x7d") "T1" =
        .error (.unmarshallingResponse e)) ∧
    GetAccountBalance sampleStd
      (mockClient TRON_SHASTA_TESTNET "K1" "\x7b\"address\": \"T1\"\x7d") "T1" = .ok 0 :=
  ⟨(GetAccountBalance_decode sampleStd (mockClient TRON_SHASTA_TESTNET "K1" "\x7b") "T1" _ _
      rfl rfl rfl).1 rfl,
   (GetAccountBalance_decode sampleStd (mockClient TRON_SHASTA_TESTNET "K1" "[]") "T1" _ _
      rfl rfl rfl).2.1 (.arr []) rfl (by intro h; cases h) (by intro ms h; cases h),
   (GetAccountBalance_decode sampleStd
      (mockClient TRON_SHASTA_TESTNET "K1" "\x7b\"balance\": \"7\"\x7d") "T1" _ _
      rfl rfl rfl).2.2.1 _ (.str ['7']) rfl rfl (by intro h; cases h)
      (by intro lit n h; cases h),
   (GetAccountBalance_decode sampleStd
      (mockClient TRON_SHASTA_TESTNET "K1" "\x7b\"address\": \"T1\"\x7d") "T1" _ _
      rfl rfl rfl).2.2.2 _ rfl rfl⟩

/-- Claim C4 fails as stated. On the bodies `{}` and `{"address": "T1"}`, valid JSON
with no `balance` member, `GetAccountBalance` returns the balance 0 and no
error. -/
theorem GetAccountBalance_missing_balance_is_zero :
    Valid "\x7b\x7d".toList = true ∧
    GetAccountBalance sampleStd (mockClient TRON_SHASTA_TESTNET "K1" "\x7b\x7d") "T1" = .ok 0 ∧
    Valid "\x7b\"address\": \"T1\"\x7d".toList = true ∧
    GetAccountBalance sampleStd
      (mockClient TRON_SHASTA_TESTNET "K1" "\x7b\"address\": \"T1\"\x7d") "T1" = .ok 0 := by
  refine ⟨?_, ?_, ?_, ?_⟩ <;> rfl

/-- Claim C2, as the code has it. For every configuration, the headers of the
outgoing request of `GetAccountBalance`, `CreateAccount` and
`BroadcastTransaction` are exactly `Content-Type: application/json` and, when
the API key is not empty, the authentication header with the key;
`TransferTRX` sets these two and `Accept: application/json` before them, and
nothing else. -/
theorem request_headers (std : Stdlib) (c : TronClient) (call : Call) (req : Request)
    (h : call.request std c = .ok req) :
    req.Header =
      (match call with
        | .transferTRX _ _ _ => [("Accept", ["application/json"])]
        | _ => []) ++
      (("Content-Type", ["application/json"]) ::
        (if c.Config.APIKey = "" then [] else [("Tron-Pro-Api-Key", [c.Config.APIKey])])) := by
  rw [(request_shape std c call req h).2.2]
  cases call <;> rfl

/-- C2 as the code has it, on the balance lookup and on the transfer with the
key `K1`. -/
theorem request_headers_witness :
    (∃ req, Call.request sampleStd (mockClient TRON_SHASTA_TESTNET "K1" "")
        (.getAccountBalance "T1") = .ok req ∧
      req.Header = [("Content-Type", ["application/json"]), ("Tron-Pro-Api-Key", ["K1"])]) ∧
    (∃ req, Call.request sampleStd (mockClient TRON_SHASTA_TESTNET "K1" "")
        (.transferTRX "TFrom" "TTo" 5) = .ok req ∧
      req.Header = [("Accept", ["application/json"]), ("Content-Type", ["application/json"]),
        ("Tron-Pro-Api-Key", ["K1"])]) :=
  ⟨⟨_, rfl, request_headers sampleStd (mockClient TRON_SHASTA_TESTNET "K1" "")
      (.getAccountBalance "T1") _ rfl⟩,
   ⟨_, rfl, request_headers sampleStd (mockClient TRON_SHASTA_TESTNET "K1" "")
      (.transferTRX "TFrom" "TTo" 5) _ rfl⟩⟩

/-- Claim C2 fails as stated. The request of `TransferTRX` carries an `Accept`
header: its headers are not just the content type and the API key. -/
theorem TransferTRX_request_has_accept :
    ∃ req, Call.request sampleStd (mockClient TRON_SHASTA_TESTNET "K1" "")
        (.transferTRX "TFrom" "TTo" 5) = .ok req ∧
      req.Header.Values "Accept" = ["application/json"] ∧
      req.Header ≠ [("Content-Type", ["application/json"]), ("Tron-Pro-Api-Key", ["K1"])] :=
  ⟨_, rfl, by decide, by decide⟩

/-- Claim C3. For each of the four operations and every configuration with API key
`k`: when `k` is empty the outgoing request has no `TRON-PRO-API-KEY` header;
when `k` is not empty the header is there with the one value `k`. -/
theorem api_key_header (std : Stdlib) (c : TronClient) (call : Call) (req : Request)
    (h : call.request std c = .ok req) :
    (c.Config.APIKey = "" → req.Header.Has "TRON-PRO-API-KEY" = false) ∧
    (c.Config.APIKey ≠ "" →
      req.Header.Has "TRON-PRO-API-KEY" = true ∧
      req.Header.Values "TRON-PRO-API-KEY" = [c.Config.APIKey] ∧
      req.Header.Get "TRON-PRO-API-KEY" = c.Config.APIKey) := by
  have hh := (request_shape std c call req h).2.2
  constructor
  · intro hk
    rw [hk] at hh
    cases call <;>
      simp [hh, Call.ownHeaders, Header.Has, canonical_api_key, List.lookup]
  · intro hk
    cases call <;>
      simp [hh, hk, Call.ownHeaders, Header.Has, Header.Values, Header.Get,
        canonical_api_key, List.lookup]

/-- C3 on the balance lookup and on the transfer with the key `K1`, and on the
balance lookup with no key. -/
theorem api_key_header_witness :
    (∃ req, Call.request sampleStd (mockClient TRON_SHASTA_TESTNET "K1" "")
        (.getAccountBalance "T1") = .ok req ∧ req.Header.Values "TRON-PRO-API-KEY" = ["K1"]) ∧
    (∃ req, Call.request sampleStd (mockClient TRON_SHASTA_TESTNET "K1" "")
        (.transferTRX "TFrom" "TTo" 5) = .ok req ∧
        req.Header.Values "TRON-PRO-API-KEY" = ["K1"]) ∧
    (∃ req, Call.request sampleStd (mockClient TRON_SHASTA_TESTNET "" "")
        (.getAccountBalance "T1") = .ok req ∧ req.Header.Has "TRON-PRO-API-KEY" = false) :=
  ⟨⟨_, rfl, ((api_key_header sampleStd (mockClient TRON_SHASTA_TESTNET "K1" "")
      (.getAccountBalance "T1") _ rfl).2 (by decide)).2.1⟩,
   ⟨_, rfl, ((api_key_header sampleStd (mockClient TRON_SHASTA_TESTNET "K1" "")
      (.transferTRX "TFrom" "TTo" 5) _ rfl).2 (by decide)).2.1⟩,
   ⟨_, rfl, (api_key_header sampleStd (mockClient TRON_SHASTA_TESTNET "" "")
      (.getAccountBalance "T1") _ rfl).1 rfl⟩⟩

/-- Claim C7. `BroadcastTransaction`, for every input string `s`, sends a request
whose body is the text `{"raw_data_hex": "` followed by `s` followed by `"}`:
`s` stands in the body as it is.  The request is what the operation hands to
the HTTP client. -/
theorem BroadcastTransaction_body (std : Stdlib) (c : TronClient) (signedTx : String)
    (req : Request) (h : BroadcastTransaction.request std c signedTx = .ok req) :
    req.Body = some ("\x7b\"raw_data_hex\": \"" ++ signedTx ++ "\"\x7d") ∧
    BroadcastTransaction std c signedTx =
      (match c.HttpClient req with
        | .error e => .error (.sendingRequest e)
        | .ok resp => BroadcastTransaction.result resp) := by
  constructor
  · simp only [BroadcastTransaction.request, NewRequest_post] at h
    cases hu : std.urlParse (c.Config.NetworkURL ++ "/wallet/broadcasttransaction") with
    | some e => simp [hu] at h
    | none =>
      simp only [hu, Except.ok.injEq] at h
      subst h
      exact (addCommonHeaders_method c _).2.2
  · simp only [BroadcastTransaction, h]

/-- C7 on an input with a quote and a backslash in it. -/
theorem BroadcastTransaction_body_witness :
    ∃ req, BroadcastTransaction.request sampleStd (mockClient TRON_SHASTA_TESTNET "K1" "")
        "0a\"\\02" = .ok req ∧
      req.Body = some "\x7b\"raw_data_hex\": \"0a\"\\02\"\x7d" :=
  ⟨_, rfl, (BroadcastTransaction_body sampleStd (mockClient TRON_SHASTA_TESTNET "K1" "")
    "0a\"\\02" _ rfl).1⟩

/-- Claim C8. For every configuration with network URL `u`, the request of each
operation is a POST to `u` followed by the operation's path; and
`CreateAccount`, on a response body that is a JSON object with the members
`address` (a string `a`), `balance` (an integer `b` of the `int64` range) and
`public_key` (a string `p`), returns the account with these three fields and
no error. -/
theorem post_url_and_account (std : Stdlib) (c : TronClient) :
    (∀ (call : Call) (req : Request), call.request std c = .ok req →
      req.Method = "POST" ∧ req.URL = c.Config.NetworkURL ++ call.path) ∧
    (∀ (req : Request) (resp : Response) (ms : List (List Char × JSON)) (a p : String)
      (lit : List Char) (b : Int),
      CreateAccount.request std c = .ok req → c.HttpClient req = .ok resp →
      checkValid resp.Body.toList = .ok (.obj ms) →
      fieldValues "address" ms = [.str a.toList] →
      fieldValues "balance" ms = [.num lit] → parseInt64 lit = some b →
      fieldValues "public_key" ms = [.str p.toList] →
      CreateAccount std c = .ok { Address := a, Balance := b, PublicKey := p }) := by
  constructor
  · intro call req h
    exact ⟨(request_shape std c call req h).1, (request_shape std c call req h).2.1⟩
  · intro req resp ms a p lit b hreq hdo hbody ha hb hlit hp
    simp only [CreateAccount, hreq, hdo]
    unfold CreateAccount.result
    rw [readValue_of_checkValid resp _ hbody rfl]
    simp only [Except.bind]
    rw [decode_account ms a p lit b ha hb hlit hp]
    rfl

/-- The end-to-end scenario of C8: network URL
`https://api.shasta.trongrid.io`, key `K1`. -/
theorem post_url_and_account_witness :
    (∃ req, CreateAccount.request sampleStd (mockClient "https://api.shasta.trongrid.io" "K1"
        "\x7b\"address\": \"41ab\", \"balance\": 7, \"public_key\": \"04cd\"\x7d") = .ok req ∧
      req.Method = "POST" ∧
      req.URL = "https://api.shasta.trongrid.io/wallet/createaccount" ∧
      req.Header.Get "TRON-PRO-API-KEY" = "K1") ∧
    CreateAccount sampleStd (mockClient "https://api.shasta.trongrid.io" "K1"
        "\x7b\"address\": \"41ab\", \"balance\": 7, \"public_key\": \"04cd\"\x7d") =
      .ok { Address := "41ab", Balance := 7, PublicKey := "04cd" } :=
  ⟨⟨_, rfl, ((post_url_and_account sampleStd (mockClient "https://api.shasta.trongrid.io" "K1"
        "\x7b\"address\": \"41ab\", \"balance\": 7, \"public_key\": \"04cd\"\x7d")).1
        .createAccount _ rfl).1,
      ((post_url_and_account sampleStd (mockClient "https://api.shasta.trongrid.io" "K1"
        "\x7b\"address\": \"41ab\", \"balance\": 7, \"public_key\": \"04cd\"\x7d")).1
        .createAccount _ rfl).2, by decide⟩,
   (post_url_and_account sampleStd (mockClient "https://api.shasta.trongrid.io" "K1"
        "\x7b\"address\": \"41ab\", \"balance\": 7, \"public_key\": \"04cd\"\x7d")).2
        _ _ _ "41ab" "04cd" ['7'] 7 rfl rfl rfl rfl rfl rfl rfl⟩

/-! ## The decimal text of an integer -/

/-- The characters of a digit below ten. -/
theorem digitChar_isDigit (d : Nat) (h : d < 10) :
    (Nat.digitChar d).isDigit = true ∧ (Nat.digitChar d).toNat - 48 = d ∧
      (Nat.digitChar d = '0' → d = 0) := by
  interval_cases d <;> decide

/-- The decimal digits of a positive number as `Nat.repr` writes them. -/
theorem toDigitsCore_eq (f : Nat) :
    ∀ (n : Nat) (ds : List Char), 0 < n → n < f →
      Nat.toDigitsCore 10 f n ds = ((Nat.digits 10 n).reverse.map Nat.digitChar) ++ ds := by
  induction f with
  | zero => intro n ds _ h; omega
  | succ f ih =>
    intro n ds hn hf
    rw [Nat.digits_def' (by decide) hn]
    simp only [Nat.toDigitsCore]
    by_cases h0 : n / 10 = 0
    · simp [h0]
    · have hlt : n / 10 < f := by omega
      simp only [h0, if_false]
      rw [ih (n / 10) _ (by omega) hlt]
      simp

theorem toString_nat_pos (n : Nat) (hn : 0 < n) :
    (toString n).toList = (Nat.digits 10 n).reverse.map Nat.digitChar := by
  show (Nat.toDigits 10 n) = _
  unfold Nat.toDigits
  rw [toDigitsCore_eq (n + 1) n [] hn (by omega)]
  simp

/-- The value of a run of decimal digits, read from the left. -/
theorem foldl_digitChars (L : List Nat) (hL : ∀ d ∈ L, d < 10) :
    (L.reverse.map Nat.digitChar).foldl (fun a c => a * 10 + (c.toNat - 48)) 0 =
      Nat.ofDigits 10 L := by
  induction L with
  | nil => rfl
  | cons h t ih =>
    have hh := (digitChar_isDigit h (hL h (List.mem_cons_self _ _))).2.1
    simp only [List.reverse_cons, List.map_append, List.map_cons, List.map_nil,
      List.foldl_append, List.foldl_cons, List.foldl_nil]
    rw [ih (fun d hd => hL d (List.mem_cons_of_mem _ hd)), hh, Nat.ofDigits_cons]
    omega

/-- The decimal text of a natural number: digits only, at least one, no
leading zero but for the text `0`, and read back it is the number. -/
theorem natText_spec (n : Nat) :
    (toString n).toList ≠ [] ∧ (∀ c ∈ (toString n).toList, c.isDigit = true) ∧
      ((toString n).toList.head? = some '0' → (toString n).toList = ['0']) ∧
      (toString n).toList.foldl (fun a c => a * 10 + (c.toNat - 48)) 0 = n := by
  rcases Nat.eq_zero_or_pos n with h0 | hpos
  · subst h0
    decide
  · rw [toString_nat_pos n hpos]
    have hne : Nat.digits 10 n ≠ [] := Nat.digits_ne_nil_iff_ne_zero.2 (by omega)
    have hlt : ∀ d ∈ Nat.digits 10 n, d < 10 := fun d hd => Nat.digits_lt_base (by decide) hd
    refine ⟨by simpa using hne, ?_, ?_, ?_⟩
    · intro c hc
      obtain ⟨d, hd, rfl⟩ := List.mem_map.1 hc
      exact (digitChar_isDigit d (hlt d (List.mem_reverse.1 hd))).1
    · intro hhead
      exfalso
      have hlast := Nat.getLast_digit_ne_zero 10 (Nat.pos_iff_ne_zero.1 hpos)
      have hmem : (Nat.digits 10 n).getLast hne ∈ Nat.digits 10 n := List.getLast_mem hne
      rw [List.head?_map, List.head?_reverse, List.getLast?_eq_getLast _ hne] at hhead
      simp only [Option.map_some', Option.some.injEq] at hhead
      exact hlast ((digitChar_isDigit _ (hlt _ hmem)).2.2 hhead)
    · rw [foldl_digitChars _ hlt, Nat.ofDigits_digits]

/-- The decimal text of an integer is the text of its absolute value, after a
minus sign when it is negative. -/
theorem intText_cases (i : Int) :
    (0 ≤ i ∧ (toString i).toList = (toString i.toNat).toList) ∨
      (i < 0 ∧ (toString i).toList = '-' :: (toString (-i).toNat).toList) := by
  cases i with
  | ofNat m => exact Or.inl ⟨Int.ofNat_nonneg m, rfl⟩
  | negSucc m => exact Or.inr ⟨Int.negSucc_lt_zero m, rfl⟩

theorem isDigit_ne_minus (c : Char) (h : c.isDigit = true) : c ≠ '-' := by
  rintro rfl
  exact absurd h (by decide)

/-- The text of a natural number does not start with a minus sign. -/
theorem natText_head (n : Nat) : (toString n).toList.head? ≠ some '-' := by
  obtain ⟨hne, hall, _, _⟩ := natText_spec n
  cases hT : (toString n).toList with
  | nil => exact absurd hT hne
  | cons c cs =>
    simp only [List.head?_cons, ne_eq, Option.some.injEq]
    exact isDigit_ne_minus c (hall c (by rw [hT]; exact List.mem_cons_self _ _))

/-- `strconv.ParseInt` reads the decimal text of an integer of the `int64`
range back to the integer. -/
theorem parseInt64_intText (i : Int) (hlo : -(2 : Int) ^ 63 ≤ i) (hhi : i < (2 : Int) ^ 63) :
    parseInt64 (toString i).toList = some i := by
  rcases intText_cases i with ⟨hi, ht⟩ | ⟨hi, ht⟩
  · obtain ⟨hne, hall, _, hval⟩ := natText_spec i.toNat
    have hhead := natText_head i.toNat
    rw [ht]
    unfold parseInt64
    simp only [hhead, if_false, hval]
    have hcast : ((i.toNat : Nat) : Int) = i := Int.toNat_of_nonneg hi
    simp [hcast]
    norm_num at hlo hhi
    exact ⟨⟨hne, hall⟩, hlo, hhi⟩
  · obtain ⟨hne, hall, _, hval⟩ := natText_spec (-i).toNat
    rw [ht]
    unfold parseInt64
    simp only [List.head?_cons, if_true, List.tail_cons, hval]
    have hcast : (((-i).toNat : Nat) : Int) = -i := Int.toNat_of_nonneg (by omega)
    simp [hcast]
    norm_num at hlo hhi
    exact ⟨⟨hne, hall⟩, hlo, hhi⟩

/-! ## Scanning the body `{"balance": n}` -/

/-- A run of digits before a closing brace is taken whole. -/
theorem span_isDigit_append (L : List Char) (hL : ∀ c ∈ L, c.isDigit = true) (r : List Char) :
    (L ++ '}' :: r).span Char.isDigit = (L, '}' :: r) := by
  rw [List.span_eq_take_drop]
  induction L with
  | nil =>
    have h : Char.isDigit '}' = false := by decide
    simp [List.takeWhile_cons, List.dropWhile_cons, h]
  | cons c cs ih =>
    have hc := hL c (List.mem_cons_self _ _)
    have ih1 := ih (fun x hx => hL x (List.mem_cons_of_mem _ hx))
    simp only [List.cons_append, List.takeWhile_cons, List.dropWhile_cons, hc, if_true]
    simp only [Prod.mk.injEq] at ih1 ⊢
    exact ⟨by rw [ih1.1], ih1.2⟩

theorem scanIntPart_digits (D r : List Char) (hne : D ≠ [])
    (hall : ∀ c ∈ D, c.isDigit = true) (h0 : D.head? = some '0' → D = ['0']) :
    scanIntPart (D ++ '}' :: r) = .ok (D, '}' :: r) := by
  cases D with
  | nil => exact absurd rfl hne
  | cons c cs =>
    by_cases hc : c = '0'
    · subst hc
      have := h0 rfl
      simp only [List.cons.injEq, true_and] at this
      subst this
      rfl
    · have hd := hall c (List.mem_cons_self _ _)
      simp only [List.cons_append, scanIntPart, hc, if_false, hd, if_true]
      rw [span_isDigit_append cs (fun x hx => hall x (List.mem_cons_of_mem _ hx))]

theorem scanUnsigned_digits (D r : List Char) (hne : D ≠ [])
    (hall : ∀ c ∈ D, c.isDigit = true) (h0 : D.head? = some '0' → D = ['0']) :
    scanUnsigned (D ++ '}' :: r) = .ok (D, '}' :: r) := by
  unfold scanUnsigned
  rw [scanIntPart_digits D r hne hall h0]
  have : scanFracExp ('}' :: r) = .ok ([], '}' :: r) := rfl
  simp [this]

theorem scanNumber_not_minus (c : Char) (cs : List Char) (h : c ≠ '-') :
    scanNumber (c :: cs) = scanUnsigned (c :: cs) := by
  unfold scanNumber
  split
  · rename_i heq
    simp only [List.cons.injEq] at heq
    exact absurd heq.1 h
  · rfl

/-- The scanner reads the decimal text of an integer before a closing brace as
one number. -/
theorem scanNumber_intText (i : Int) (r : List Char) :
    scanNumber ((toString i).toList ++ '}' :: r) = .ok ((toString i).toList, '}' :: r) := by
  rcases intText_cases i with ⟨_, ht⟩ | ⟨_, ht⟩
  · obtain ⟨hne, hall, h0, _⟩ := natText_spec i.toNat
    rw [ht]
    cases hT : (toString i.toNat).toList with
    | nil => exact absurd hT hne
    | cons c cs =>
      rw [hT] at hne hall h0
      rw [List.cons_append, scanNumber_not_minus c _
        (isDigit_ne_minus c (hall c (List.mem_cons_self _ _))), ← List.cons_append]
      exact scanUnsigned_digits _ r hne hall h0
  · obtain ⟨hne, hall, h0, _⟩ := natText_spec (-i).toNat
    rw [ht]
    simp only [List.cons_append, scanNumber]
    rw [scanUnsigned_digits _ r hne hall h0]

/-- The first character of the decimal text of an integer. -/
theorem intText_head (i : Int) :
    ∃ c cs, (toString i).toList = c :: cs ∧ (c = '-' ∨ c.isDigit = true) := by
  rcases intText_cases i with ⟨_, ht⟩ | ⟨_, ht⟩
  · obtain ⟨hne, hall, _, _⟩ := natText_spec i.toNat
    rw [ht]
    cases hT : (toString i.toNat).toList with
    | nil => exact absurd hT hne
    | cons c cs => exact ⟨c, cs, rfl, Or.inr (hall c (by rw [hT]; exact List.mem_cons_self _ _))⟩
  · exact ⟨_, _, ht, Or.inl rfl⟩

/-- A character that starts a number starts nothing else. -/
theorem number_start (c : Char) (hc : c = '-' ∨ c.isDigit = true) :
    c ≠ '"' ∧ c ≠ 't' ∧ c ≠ 'f' ∧ c ≠ 'n' ∧ c ≠ '{' ∧ c ≠ '[' ∧ isSpace c = false := by
  rcases hc with rfl | hd
  · decide
  · refine ⟨?_, ?_, ?_, ?_, ?_, ?_, ?_⟩
    · rintro rfl; exact absurd hd (by decide)
    · rintro rfl; exact absurd hd (by decide)
    · rintro rfl; exact absurd hd (by decide)
    · rintro rfl; exact absurd hd (by decide)
    · rintro rfl; exact absurd hd (by decide)
    · rintro rfl; exact absurd hd (by decide)
    · cases hs : isSpace c with
      | false => rfl
      | true =>
        simp only [isSpace, Bool.or_eq_true, decide_eq_true_eq] at hs
        rcases hs with ((rfl | rfl) | rfl) | rfl <;> exact absurd hd (by decide)

theorem parseValue_intText (d : Nat) (i : Int) (r : List Char) :
    parseValue d ((toString i).toList ++ '}' :: r) =
      .ok (.num (toString i).toList, '}' :: r) := by
  have hnum := scanNumber_intText i r
  obtain ⟨c, cs, hT, hc⟩ := intText_head i
  obtain ⟨h1, h2, h3, h4, h5, h6, _⟩ := number_start c hc
  rw [hT] at hnum ⊢
  rw [List.cons_append] at hnum ⊢
  have hs : scanScalar c (cs ++ '}' :: r) = .ok (.num (c :: cs), '}' :: r) := by
    simp only [scanScalar, h1, h2, h3, h4, if_false, hc, if_true, hnum]
  cases d with
  | zero => simp only [parseValue, h5, h6, or_self, if_false, hs]
  | succ d => simp only [parseValue, h5, h6, or_self, if_false, hs]

theorem skipSpace_intText (i : Int) (r : List Char) :
    skipSpace ((toString i).toList ++ r) = (toString i).toList ++ r := by
  obtain ⟨c, cs, hT, hc⟩ := intText_head i
  rw [hT, List.cons_append]
  simp only [skipSpace, (number_start c hc).2.2.2.2.2.2]
  rfl

/-- The one member `"balance": v` and the closing brace of an object. -/
theorem scanMembers_balance (pv : List Char → Scan JSON) (n : Nat) (T r : List Char) (v : JSON)
    (h : pv (skipSpace T) = .ok (v, '}' :: r)) :
    scanMembers pv (n + 1)
        ('"' :: 'b' :: 'a' :: 'l' :: 'a' :: 'n' :: 'c' :: 'e' :: '"' :: ':' :: ' ' :: T) =
      .ok ([(['b', 'a', 'l', 'a', 'n', 'c', 'e'], v)], r) := by
  have hkey : scanString ('b' :: 'a' :: 'l' :: 'a' :: 'n' :: 'c' :: 'e' :: '"' :: ':' :: ' ' :: T) =
      .ok (['b', 'a', 'l', 'a', 'n', 'c', 'e'], ':' :: ' ' :: T) := rfl
  have hsp : skipSpace (' ' :: T) = skipSpace T := rfl
  have hbr : skipSpace ('}' :: r) = '}' :: r := rfl
  have hq : skipSpace ('"' :: 'b' :: 'a' :: 'l' :: 'a' :: 'n' :: 'c' :: 'e' :: '"' :: ':' :: ' ' :: T) =
      '"' :: 'b' :: 'a' :: 'l' :: 'a' :: 'n' :: 'c' :: 'e' :: '"' :: ':' :: ' ' :: T := rfl
  have hc : skipSpace (':' :: ' ' :: T) = ':' :: ' ' :: T := rfl
  simp only [scanMembers, hq, if_true, hkey, hc, hsp, h, hbr]
  rw [if_neg (by decide)]

/-- The body `{"balance": n}` is valid JSON: an object with the one member
`balance`, the number with the decimal text of `n`. -/
theorem checkValid_balance_body (i : Int) :
    checkValid ("\x7b\"balance\": " ++ toString i ++ "\x7d").toList =
      .ok (.obj [("balance".toList, .num (toString i).toList)]) := by
  have hbody : ("\x7b\"balance\": " ++ toString i ++ "\x7d").toList =
      '{' :: '"' :: 'b' :: 'a' :: 'l' :: 'a' :: 'n' :: 'c' :: 'e' :: '"' :: ':' :: ' ' ::
        ((toString i).toList ++ ['}']) := by
    simp [String.toList, String.data_append]
  have hm := scanMembers_balance (parseValue 9999)
    (('b' :: 'a' :: 'l' :: 'a' :: 'n' :: 'c' :: 'e' :: '"' :: ':' :: ' ' ::
        ((toString i).toList ++ ['}'])).length + 1)
    ((toString i).toList ++ ['}']) [] (.num (toString i).toList)
    (by rw [skipSpace_intText]; exact parseValue_intText 9999 i [])
  have hscan : scanValue ('{' :: '"' :: 'b' :: 'a' :: 'l' :: 'a' :: 'n' :: 'c' :: 'e' :: '"' ::
      ':' :: ' ' :: ((toString i).toList ++ ['}'])) =
      .ok (.obj [("balance".toList, .num (toString i).toList)], []) := by
    show ((match scanMembers (parseValue 9999) _ _ with
      | Except.ok (ms, r1) => Except.ok (JSON.obj ms, r1)
      | Except.error e => Except.error e) : Scan JSON) = _
    rw [hm]
    rfl
  rw [hbody]
  unfold checkValid
  rw [hscan]
  rfl

/-- Claim C6. `GetAccountBalance`, for every address, every configuration and
every integer `n` of the signed 64-bit range, when the round trip succeeds
with the response body `{"balance": n}`, returns `n` and no error. -/
theorem GetAccountBalance_balance (std : Stdlib) (c : TronClient) (address : String)
    (req : Request) (resp : Response) (n : Int)
    (hreq : GetAccountBalance.request std c address = .ok req)
    (hdo : c.HttpClient req = .ok resp)
    (hread : resp.ReadErr = none)
    (hbody : resp.Body = "\x7b\"balance\": " ++ toString n ++ "\x7d")
    (hlo : -(2 : Int) ^ 63 ≤ n) (hhi : n < (2 : Int) ^ 63) :
    GetAccountBalance std c address = .ok n := by
  have hop : GetAccountBalance std c address = GetAccountBalance.result resp := by
    simp only [GetAccountBalance, hreq, hdo]
  have hvalid := checkValid_balance_body n
  rw [← hbody] at hvalid
  have hfield : fieldValues "balance" [("balance".toList, JSON.num (toString n).toList)] =
      [JSON.num (toString n).toList] := rfl
  rw [hop, GetAccountBalance_result_value resp _ hread hvalid, decode_balance_single _ _ hfield]
  simp only [storeInt64, parseInt64_intText n hlo hhi]
  rfl

/-- The witness of C6: the body `{"balance": 12345}` gives 12345. -/
theorem GetAccountBalance_balance_witness :
    GetAccountBalance sampleStd
      (mockClient TRON_SHASTA_TESTNET "K1" "\x7b\"balance\": 12345\x7d") "T1" = .ok 12345 :=
  GetAccountBalance_balance sampleStd
    (mockClient TRON_SHASTA_TESTNET "K1" "\x7b\"balance\": 12345\x7d") "T1" _ _ 12345
    rfl rfl rfl (by decide) (by decide) (by decide)

/-- The two operations that decode the body read in full return a decode
error for every body that is not a valid JSON document. -/
theorem unmarshal_rejects_invalid (resp : Response) (hread : resp.ReadErr = none)
    (hv : Valid resp.Body.toList = false) :
    GetAccountBalance.result resp = .error (.unmarshallingResponse .SyntaxError) ∧
      TransferTRX.result resp = .error (.unmarshallingResponse .SyntaxError) := by
  constructor
  · unfold GetAccountBalance.result ReadAll
    rw [hread]
    simp only []
    rw [checkValid_of_not_valid _ hv]
    rfl
  · unfold TransferTRX.result ReadAll
    rw [hread]
    simp only []
    rw [checkValid_of_not_valid _ hv]
    rfl

/-- The two operations that decode from the stream return a decode error
whenever the first value of the body does not scan. -/
theorem stream_rejects_bad_first_value (resp : Response) (e : ScanError)
    (h : scanValue resp.Body.toList = .error e) :
    (∃ e1, CreateAccount.result resp = .error (.decodingResponse e1)) ∧
      ∃ e2, BroadcastTransaction.result resp = .error (.decodingResponse e2) := by
  have hr : ∃ e1, readValue resp = .error e1 := by
    unfold readValue
    rw [h]
    cases e with
    | short =>
      simp only []
      cases resp.ReadErr with
      | some x => exact ⟨_, rfl⟩
      | none =>
        simp only []
        split_ifs
        · exact ⟨_, rfl⟩
        · exact ⟨_, rfl⟩
    | bad => exact ⟨_, rfl⟩
    | depth => exact ⟨_, rfl⟩
    | fuel => exact ⟨_, rfl⟩
  obtain ⟨e1, he⟩ := hr
  constructor
  · refine ⟨e1, ?_⟩
    unfold CreateAccount.result
    rw [he]
    rfl
  · refine ⟨e1, ?_⟩
    unfold BroadcastTransaction.result
    rw [he]
    rfl

/-- Claim C5, where the code departs from it. The body `{}x`, a JSON value followed
by a further byte, is not a valid JSON document: `GetAccountBalance` and
`TransferTRX`, which decode the body read in full, return a decode error,
but `CreateAccount` and `BroadcastTransaction`, which decode from the stream,
return the zero account and the empty string with no error. -/
theorem stream_decode_ignores_trailing_bytes :
    Valid "\x7b\x7dx".toList = false ∧
    GetAccountBalance sampleStd (mockClient TRON_SHASTA_TESTNET "K1" "\x7b\x7dx") "T1" =
      .error (.unmarshallingResponse .SyntaxError) ∧
    TransferTRX sampleStd (mockClient TRON_SHASTA_TESTNET "K1" "\x7b\x7dx") "TFrom" "TTo" 5 =
      .error (.unmarshallingResponse .SyntaxError) ∧
    CreateAccount sampleStd (mockClient TRON_SHASTA_TESTNET "K1" "\x7b\x7dx") =
      .ok { Address := "", Balance := 0, PublicKey := "" } ∧
    BroadcastTransaction sampleStd (mockClient TRON_SHASTA_TESTNET "K1" "\x7b\x7dx") "0a02" =
      .ok "" ∧
    BroadcastTransaction sampleStd
      (mockClient TRON_SHASTA_TESTNET "K1" "\x7b\"txID\": \"abc\"\x7d\x7d") "0a02" = .ok "abc" := by
  refine ⟨?_, ?_, ?_, ?_, ?_, ?_⟩ <;> rfl

/-! ## The request body of the balance lookup -/

/-- A run of plain characters and a closing quote are the string of these
characters. -/
theorem scanString_plain (A r : List Char) (hA : ∀ c ∈ A, plainChar c = true) :
    scanString (A ++ '"' :: r) = .ok (A, r) := by
  unfold scanString
  induction A with
  | nil => rfl
  | cons c A ih =>
    have hc := hA c (List.mem_cons_self _ _)
    simp only [plainChar, Bool.and_eq_true, decide_eq_true_eq] at hc
    obtain ⟨⟨h1, h2⟩, h3⟩ := hc
    have h4 : ¬ c.toNat < 0x20 := by omega
    have ih1 := ih (fun x hx => hA x (List.mem_cons_of_mem _ hx))
    simp only [List.cons_append, scanStr, h1, h2, h4, if_false]
    show emit (flushPending none [c]) (scanStr StrState.plain none (A ++ '"' :: r)) = _
    rw [ih1]
    rfl

/-- For an address of plain characters, the request body of the balance
lookup is valid JSON: the object with the member `address`, the address, and
the member `visible`, true, and no other member. -/
theorem checkValid_address_body (address : String)
    (hA : ∀ c ∈ address.toList, plainChar c = true) :
    checkValid ("\x7b\"address\": \"" ++ address ++ "\", \"visible\": true\x7d").toList =
      .ok (.obj [("address".toList, .str address.toList), ("visible".toList, .bool true)]) := by
  have hbody : ("\x7b\"address\": \"" ++ address ++ "\", \"visible\": true\x7d").toList =
      '{' :: '"' :: 'a' :: 'd' :: 'd' :: 'r' :: 'e' :: 's' :: 's' :: '"' :: ':' :: ' ' :: '"' ::
        (address.toList ++ '"' :: ", \"visible\": true\x7d".toList) := by
    simp [String.toList, String.data_append]
  have hstr := scanString_plain address.toList ", \"visible\": true\x7d".toList hA
  have hscan : scanValue ('{' :: '"' :: 'a' :: 'd' :: 'd' :: 'r' :: 'e' :: 's' :: 's' :: '"' ::
      ':' :: ' ' :: '"' :: (address.toList ++ '"' :: ", \"visible\": true\x7d".toList)) =
      .ok (.obj [("address".toList, .str address.toList), ("visible".toList, .bool true)],
        []) := by
    show ((match (match (match scanString
          (address.toList ++ '"' :: ", \"visible\": true\x7d".toList) with
        | Except.ok (s, r) => Except.ok (JSON.str s, r)
        | Except.error e => Except.error e : Scan JSON) with
      | Except.error e => Except.error e
      | Except.ok (v, r3) =>
        match skipSpace r3 with
        | [] => Except.error ScanError.short
        | c2 :: r4 =>
          if c2 = ',' then
            match scanMembers (parseValue 9999) _ r4 with
            | Except.ok (ms, r5) => Except.ok (("address".toList, v) :: ms, r5)
            | Except.error e => Except.error e
          else if c2 = '}' then Except.ok ([("address".toList, v)], r4)
          else Except.error ScanError.bad : Scan (List (List Char × JSON))) with
      | Except.ok (ms, r1) => Except.ok (JSON.obj ms, r1)
      | Except.error e => Except.error e) : Scan JSON) = _
    rw [hstr]
    rfl
  rw [hbody]
  unfold checkValid
  rw [hscan]
  rfl

/-- Claim C9, where the code departs from it. The address is put into the body as
it is.  For the address `"` the body is `{"address": """, "visible": true}`,
which is not valid JSON; for the address `T1", "visible": false, "x": "` the
body is an object whose `address` member is `T1`, not the address passed in,
and which has further members. -/
theorem GetAccountBalance_body_not_escaped :
    (∃ req, GetAccountBalance.request sampleStd (mockClient TRON_SHASTA_TESTNET "K1" "")
        "\"" = .ok req ∧
      req.Body = some "\x7b\"address\": \"\"\", \"visible\": true\x7d" ∧
      Valid "\x7b\"address\": \"\"\", \"visible\": true\x7d".toList = false) ∧
    (∃ req, GetAccountBalance.request sampleStd (mockClient TRON_SHASTA_TESTNET "K1" "")
        "T1\", \"visible\": false, \"x\": \"" = .ok req ∧
      req.Body = some
        "\x7b\"address\": \"T1\", \"visible\": false, \"x\": \"\", \"visible\": true\x7d" ∧
      checkValid
        "\x7b\"address\": \"T1\", \"visible\": false, \"x\": \"\", \"visible\": true\x7d".toList =
        .ok (.obj [("address".toList, .str "T1".toList), ("visible".toList, .bool false),
          ("x".toList, .str []), ("visible".toList, .bool true)])) :=
  ⟨⟨_, rfl, rfl, rfl⟩, ⟨_, rfl, rfl, rfl⟩⟩

/-! ## The loops over items never run out of fuel -/

theorem skipSpace_length_le (cs : List Char) : (skipSpace cs).length ≤ cs.length := by
  induction cs with
  | nil => simp [skipSpace]
  | cons c cs ih =>
    unfold skipSpace
    split_ifs
    · exact Nat.le_succ_of_le ih
    · exact Nat.le_refl _

theorem span_snd_length_le (p : Char → Bool) (cs : List Char) :
    (cs.span p).2.length ≤ cs.length := by
  rw [List.span_eq_take_drop]
  exact (List.dropWhile_sublist p).length_le

theorem scanDigits1_consumes : Consumes scanDigits1 := by
  intro cs
  cases cs with
  | nil => simp [scanDigits1]
  | cons c cs =>
    simp only [scanDigits1]
    split_ifs with h
    · refine ⟨by simp, ?_⟩
      intro v r hr
      simp only [Except.ok.injEq] at hr
      have h2 : r = ((c :: cs).span Char.isDigit).2 := by rw [hr]
      rw [h2, List.span_eq_take_drop]
      simp only [List.dropWhile_cons, h, if_true, List.length_cons]
      exact Nat.lt_succ_of_le (List.dropWhile_sublist _).length_le
    · simp

theorem scanExpTail_consumes : Consumes scanExpTail := by
  intro cs
  unfold scanExpTail
  split
  · rename_i r
    have h := scanDigits1_consumes r
    cases hx : scanDigits1 r with
    | error e => simpa [hx] using h
    | ok p =>
      obtain ⟨a, r1⟩ := p
      simp [hx] at h ⊢
      omega
  · rename_i r
    have h := scanDigits1_consumes r
    cases hx : scanDigits1 r with
    | error e => simpa [hx] using h
    | ok p =>
      obtain ⟨a, r1⟩ := p
      simp [hx] at h ⊢
      omega
  · exact scanDigits1_consumes cs

theorem scanExp_noGrowth : NoGrowth scanExp := by
  intro cs
  unfold scanExp
  split
  · rename_i r
    have h := scanExpTail_consumes r
    cases hx : scanExpTail r with
    | error e => simpa [hx] using h
    | ok p =>
      obtain ⟨a, r1⟩ := p
      simp [hx] at h ⊢
      omega
  · rename_i r
    have h := scanExpTail_consumes r
    cases hx : scanExpTail r with
    | error e => simpa [hx] using h
    | ok p =>
      obtain ⟨a, r1⟩ := p
      simp [hx] at h ⊢
      omega
  · simp

theorem scanFracExp_noGrowth : NoGrowth scanFracExp := by
  intro cs
  unfold scanFracExp
  split
  · rename_i r
    have h := scanDigits1_consumes r
    cases hx : scanDigits1 r with
    | error e => simpa [hx] using h
    | ok p =>
      obtain ⟨a, r1⟩ := p
      have h2 := scanExp_noGrowth r1
      cases hy : scanExp r1 with
      | error e => simpa [hx, hy] using h2
      | ok q =>
        obtain ⟨b, r2⟩ := q
        simp [hx, hy] at h h2 ⊢
        omega
  · exact scanExp_noGrowth cs

theorem scanIntPart_consumes : Consumes scanIntPart := by
  intro cs
  cases cs with
  | nil => simp [scanIntPart]
  | cons c cs =>
    simp only [scanIntPart]
    have hs := span_snd_length_le Char.isDigit cs
    split_ifs
    · simp
    · refine ⟨by simp, ?_⟩
      intro v r hr
      simp only [Except.ok.injEq, Prod.mk.injEq] at hr
      rw [← hr.2]
      exact Nat.lt_succ_of_le hs
    · simp

theorem scanUnsigned_consumes : Consumes scanUnsigned := by
  intro cs
  unfold scanUnsigned
  have h := scanIntPart_consumes cs
  cases hx : scanIntPart cs with
  | error e => simpa [hx] using h
  | ok p =>
    obtain ⟨a, r1⟩ := p
    have h2 := scanFracExp_noGrowth r1
    cases hy : scanFracExp r1 with
    | error e => simpa [hx, hy] using h2
    | ok q =>
      obtain ⟨b, r2⟩ := q
      simp [hx, hy] at h h2 ⊢
      omega

theorem scanNumber_consumes : Consumes scanNumber := by
  intro cs
  unfold scanNumber
  split
  · rename_i r
    have h := scanUnsigned_consumes r
    cases hx : scanUnsigned r with
    | error e => simpa [hx] using h
    | ok p =>
      obtain ⟨a, r1⟩ := p
      simp [hx] at h ⊢
      omega
  · exact scanUnsigned_consumes cs

theorem expectChars_noGrowth (es : List Char) : NoGrowth (expectChars es) := by
  induction es with
  | nil => intro cs; simp [expectChars]
  | cons e es ih =>
    intro cs
    cases cs with
    | nil => simp [expectChars]
    | cons c cs =>
      simp only [expectChars]
      split_ifs
      · have h := ih cs
        refine ⟨h.1, fun v r hr => Nat.le_succ_of_le (h.2 v r hr)⟩
      · simp

theorem emit_cases (pre : List Char) (x : Scan (List Char)) :
    (emit pre x = .error .fuel → x = .error .fuel) ∧
      ∀ v r, emit pre x = .ok (v, r) → ∃ a, x = .ok (a, r) := by
  cases x with
  | error e => simp [emit]
  | ok p => obtain ⟨a, r⟩ := p; simp [emit]

theorem scanStr_consumes (cs : List Char) :
    ∀ (st : StrState) (pending : Option Nat),
      scanStr st pending cs ≠ .error .fuel ∧
        ∀ v r, scanStr st pending cs = .ok (v, r) → r.length < cs.length := by
  induction cs with
  | nil => intro st pending; simp [scanStr]
  | cons c cs ih =>
    have step : ∀ (pre : List Char) (st : StrState) (pending : Option Nat),
        emit pre (scanStr st pending cs) ≠ .error .fuel ∧
          ∀ v r, emit pre (scanStr st pending cs) = .ok (v, r) →
            r.length < (c :: cs).length := by
      intro pre st pending
      have h := ih st pending
      have e := emit_cases pre (scanStr st pending cs)
      refine ⟨fun hf => h.1 (e.1 hf), ?_⟩
      intro v r hv
      obtain ⟨a, ha⟩ := e.2 v r hv
      exact Nat.lt_succ_of_lt (h.2 a r ha)
    have next : ∀ (st : StrState) (pending : Option Nat),
        scanStr st pending cs ≠ .error .fuel ∧
          ∀ v r, scanStr st pending cs = .ok (v, r) → r.length < (c :: cs).length := by
      intro st pending
      have h := ih st pending
      exact ⟨h.1, fun v r hv => Nat.lt_succ_of_lt (h.2 v r hv)⟩
    intro st pending
    cases st with
    | plain =>
      simp only [scanStr]
      split_ifs
      · simp
      · exact next _ _
      · simp
      · exact step _ _ _
    | esc =>
      simp only [scanStr]
      split_ifs
      · exact next _ _
      · split
        · exact step _ _ _
        · simp
    | hex k acc =>
      simp only [scanStr]
      split
      · simp
      · split_ifs
        · exact next _ _
        · split
          · exact step _ _ _
          · exact step _ _ _
        · split
          · exact step _ _ _
          · exact step _ _ _

theorem scanString_consumes : Consumes scanString :=
  fun cs => scanStr_consumes cs .plain none

theorem scanScalar_noGrowth (c : Char) : NoGrowth (scanScalar c) := by
  intro cs
  unfold scanScalar
  split_ifs
  · have h := scanString_consumes cs
    cases hx : scanString cs with
    | error e => simpa [hx] using h
    | ok p =>
      obtain ⟨a, r1⟩ := p
      simp [hx] at h ⊢
      omega
  · have h := expectChars_noGrowth ['r', 'u', 'e'] cs
    cases hx : expectChars ['r', 'u', 'e'] cs with
    | error e => simpa [hx] using h
    | ok p =>
      obtain ⟨a, r1⟩ := p
      simpa [hx] using h
  · have h := expectChars_noGrowth ['a', 'l', 's', 'e'] cs
    cases hx : expectChars ['a', 'l', 's', 'e'] cs with
    | error e => simpa [hx] using h
    | ok p =>
      obtain ⟨a, r1⟩ := p
      simpa [hx] using h
  · have h := expectChars_noGrowth ['u', 'l', 'l'] cs
    cases hx : expectChars ['u', 'l', 'l'] cs with
    | error e => simpa [hx] using h
    | ok p =>
      obtain ⟨a, r1⟩ := p
      simpa [hx] using h
  · have h := scanNumber_consumes (c :: cs)
    cases hx : scanNumber (c :: cs) with
    | error e => simpa [hx] using h
    | ok p =>
      obtain ⟨a, r1⟩ := p
      simp [hx] at h ⊢
      omega
  · simp

/-- With fuel above the length of the text, the loop over the items of an
array ends before the fuel does. -/
theorem scanElems_consumes (pv : List Char → Scan JSON) (hpv : Consumes pv) :
    ∀ (n : Nat) (cs : List Char), cs.length < n →
      scanElems pv n cs ≠ .error .fuel ∧
        ∀ v r, scanElems pv n cs = .ok (v, r) → r.length < cs.length := by
  intro n
  induction n with
  | zero => intro cs h; omega
  | succ n ih =>
    intro cs hlen
    simp only [scanElems]
    have h1 := hpv (skipSpace cs)
    have hs := skipSpace_length_le cs
    cases hx : pv (skipSpace cs) with
    | error e => simpa [hx] using h1
    | ok p =>
      obtain ⟨v, r⟩ := p
      have hr : r.length < (skipSpace cs).length := h1.2 v r hx
      have hs2 := skipSpace_length_le r
      simp only []
      cases hy : skipSpace r with
      | nil => simp
      | cons c r1 =>
        have hr1 : r1.length + 1 ≤ r.length := by
          rw [hy] at hs2
          simpa using hs2
        simp only []
        split_ifs
        · have h2 := ih r1 (by omega)
          cases hz : scanElems pv n r1 with
          | error e => simpa [hz] using h2
          | ok q =>
            obtain ⟨vs, r2⟩ := q
            have := h2.2 vs r2 hz
            simp
            omega
        · simp
          omega
        · simp

/-- With fuel above the length of the text, the loop over the members of an
object ends before the fuel does. -/
theorem scanMembers_consumes (pv : List Char → Scan JSON) (hpv : Consumes pv) :
    ∀ (n : Nat) (cs : List Char), cs.length < n →
      scanMembers pv n cs ≠ .error .fuel ∧
        ∀ v r, scanMembers pv n cs = .ok (v, r) → r.length < cs.length := by
  intro n
  induction n with
  | zero => intro cs h; omega
  | succ n ih =>
    intro cs hlen
    simp only [scanMembers]
    have hs := skipSpace_length_le cs
    cases h0 : skipSpace cs with
    | nil => simp
    | cons c0 r0 =>
      rw [h0] at hs
      simp only [List.length_cons] at hs
      simp only []
      split_ifs
      · have hk := scanString_consumes r0
        cases hx : scanString r0 with
        | error e => simpa [hx] using hk
        | ok p =>
          obtain ⟨k, r1⟩ := p
          have hr1 : r1.length < r0.length := hk.2 k r1 hx
          have hs1 := skipSpace_length_le r1
          simp only []
          cases h1 : skipSpace r1 with
          | nil => simp
          | cons c1 r2 =>
            rw [h1] at hs1
            simp only [List.length_cons] at hs1
            simp only []
            split_ifs
            · have hv := hpv (skipSpace r2)
              have hs2 := skipSpace_length_le r2
              cases hy : pv (skipSpace r2) with
              | error e => simpa [hy] using hv
              | ok q =>
                obtain ⟨v, r3⟩ := q
                have hr3 : r3.length < (skipSpace r2).length := hv.2 v r3 hy
                have hs3 := skipSpace_length_le r3
                simp only []
                cases h3 : skipSpace r3 with
                | nil => simp
                | cons c2 r4 =>
                  rw [h3] at hs3
                  simp only [List.length_cons] at hs3
                  simp only []
                  split_ifs
                  · have h2 := ih r4 (by omega)
                    cases hz : scanMembers pv n r4 with
                    | error e => simpa [hz] using h2
                    | ok w =>
                      obtain ⟨ms, r5⟩ := w
                      have := h2.2 ms r5 hz
                      simp
                      omega
                  · simp
                    omega
                  · simp
            · simp
      · simp

theorem scanContainer_consumes (pv : List Char → Scan JSON) (hpv : Consumes pv) (c : Char)
    (cs : List Char) :
    scanContainer pv c cs ≠ .error .fuel ∧
      ∀ v r, scanContainer pv c cs = .ok (v, r) → r.length ≤ cs.length := by
  unfold scanContainer
  have hs := skipSpace_length_le cs
  split_ifs
  · cases h0 : skipSpace cs with
    | nil => simp
    | cons c1 r =>
      rw [h0] at hs
      simp only [List.length_cons] at hs
      simp only []
      split_ifs
      · simp
        omega
      · have h := scanMembers_consumes pv hpv (r.length + 2) (c1 :: r) (by simp)
        cases hx : scanMembers pv (r.length + 2) (c1 :: r) with
        | error e => simpa [hx] using h
        | ok p =>
          obtain ⟨ms, r1⟩ := p
          have := h.2 ms r1 hx
          simp only [List.length_cons] at this
          simp
          omega
  · cases h0 : skipSpace cs with
    | nil => simp
    | cons c1 r =>
      rw [h0] at hs
      simp only [List.length_cons] at hs
      simp only []
      split_ifs
      · simp
        omega
      · have h := scanElems_consumes pv hpv (r.length + 2) (c1 :: r) (by simp)
        cases hx : scanElems pv (r.length + 2) (c1 :: r) with
        | error e => simpa [hx] using h
        | ok p =>
          obtain ⟨vs, r1⟩ := p
          have := h.2 vs r1 hx
          simp only [List.length_cons] at this
          simp
          omega

/-- Scanning a value takes at least one character and never stops for lack of
loop fuel, at every nesting limit. -/
theorem parseValue_consumes (d : Nat) : Consumes (parseValue d) := by
  induction d with
  | zero =>
    intro cs
    cases cs with
    | nil => simp [parseValue]
    | cons c cs =>
      simp only [parseValue]
      split_ifs
      · simp
      · have h := scanScalar_noGrowth c cs
        exact ⟨h.1, fun v r hv => Nat.lt_succ_of_le (h.2 v r hv)⟩
  | succ d ih =>
    intro cs
    cases cs with
    | nil => simp [parseValue]
    | cons c cs =>
      simp only [parseValue]
      split_ifs
      · have h := scanContainer_consumes (parseValue d) ih c cs
        exact ⟨h.1, fun v r hv => Nat.lt_succ_of_le (h.2 v r hv)⟩
      · have h := scanScalar_noGrowth c cs
        exact ⟨h.1, fun v r hv => Nat.lt_succ_of_le (h.2 v r hv)⟩

/-- The scan of the first value of a text never stops for lack of loop fuel:
the bound on the loops over items is never the reason for a result. -/
theorem scanValue_fuel (cs : List Char) : scanValue cs ≠ .error .fuel :=
  (parseValue_consumes maxNestingDepth (skipSpace cs)).1

end TronGrid
